import Mathlib

/-!
Verification of the ai8n DAG workflow execution engine
(`src/model/run_workflow.py`, class `WorkflowExecutor`).

The engine is shallowly embedded: Python dicts of JSON-like data become an
inductive `Value` type, the sqlite catalog becomes an in-memory association
list, the execution ledger becomes an explicit record list threaded through
the scheduler, and the effectful pieces the engine merely calls out to
(`json.loads`, `json.dumps`, `subprocess.run`) become fields of an `Env`
oracle supplied to every run.  Python exceptions become `Except` errors /
an explicit exception constructor in the scheduler's step output; the
scheduler's unbounded `while queue:` loop becomes a fuel-indexed loop whose
out-of-fuel outcome models non-termination.

Python set membership is modelled by list membership; `completed_nodes`
(a Python `set`) is modelled as a list to which ids are only ever added
when absent (the engine only processes a node when it is not completed,
and node ids are unique within a workflow per the schema's primary key),
so list length agrees with set cardinality under that uniqueness invariant.
-/

namespace Ai8n

/-- JSON-like values, the universe of Python data the engine manipulates.
Arrays are not needed by any claim and are omitted from the model. -/
inductive Value where
  | null
  | bool (b : Bool)
  | num (n : Int)
  | str (s : String)
  | dict (entries : List (String × Value))

/-- Python truthiness for the values above (`if x:`): `None`, `False`, `0`,
the empty string and the empty dict are falsy. -/
def pyTruthy : Value → Bool
  | .null => false
  | .bool b => b
  | .num n => n != 0
  | .str s => s ≠ ""
  | .dict es => ¬ es.isEmpty

/-- A Python dict with string keys, as an insertion-ordered association list
(the shape of every `input_data` mapping in the scheduler). -/
abbrev Kv := List (String × Value)

/-- Shared shape of one mutating assignment on a Python dict modelled as an
association list: an existing key keeps its position and gets its value
transformed by `f`; an absent key is appended with value `absent`. -/
def mapAssoc {κ β : Type} [DecidableEq κ] (g : List (κ × β)) (k : κ)
    (f : β → β) (absent : β) : List (κ × β) :=
  if g.any (fun p => p.1 = k) then
    g.map (fun p => if p.1 = k then (p.1, f p.2) else p)
  else
    g ++ [(k, absent)]

/-- Lookup with default on an association list (`d.get(k, dflt)` /
`d[k]` where the key is known present). -/
def getAssoc {κ β : Type} [DecidableEq κ] (g : List (κ × β)) (k : κ)
    (dflt : β) : β :=
  match g.find? (fun p => p.1 = k) with
  | some p => p.2
  | none => dflt

/-- One assignment `d[k] = v` on a Python dict: an existing key keeps its
position and gets the new value, a new key is appended. -/
def updOne (d : Kv) (k : String) (v : Value) : Kv :=
  mapAssoc d k (fun _ => v) v

/-- Python `d.update(e)` for two dicts: assign every entry of `e` into `d`
in order (last write wins on key collision). -/
def dictUpdateKv (d e : Kv) : Kv :=
  e.foldl (fun acc p => updOne acc p.1 p.2) d

/-- Python `d.update(v)` where `v` is an arbitrary value: succeeds exactly
when `v` is a mapping, otherwise raises (`TypeError`, as when the engine
merges a predecessor output that parsed to a non-mapping). -/
def pyDictUpdate (d : Kv) (v : Value) : Except String Kv :=
  match v with
  | .dict es => .ok (dictUpdateKv d es)
  | _ => .error "TypeError: dict update requires a mapping"

/-- Python `params[k]` on a parsed parameters value: raises unless the value
is a mapping containing the key. -/
def pyGetItem (v : Value) (k : String) : Except String Value :=
  match v with
  | .dict es =>
    match es.find? (fun p => p.1 = k) with
    | some p => .ok p.2
    | none => .error ("KeyError: " ++ k)
  | _ => .error ("TypeError: value is not subscriptable with key " ++ k)

/-- Python `params.get(k, d)` on a parsed parameters value. -/
def pyGetDefault (v : Value) (k : String) (d : Value) : Except String Value :=
  match v with
  | .dict es =>
    match es.find? (fun p => p.1 = k) with
    | some p => .ok p.2
    | none => .ok d
  | _ => .error ("AttributeError: value has no attribute get")

/-- The normalized dispatch envelope `{success, output?, error?, message?}`
returned by every node-type handler.  A missing key and an explicit `None`
are both modelled as `none` (the engine never distinguishes them: `output`
is read with `.get('output', {})` on successful results only, and every
success-producing handler sets it). -/
structure NodeResult where
  success : Bool
  output : Option Value := none
  error : Option String := none
  message : Option String := none

/-- Outcome of one `subprocess.run(command, shell=True, ...)` call. -/
structure SubprocOut where
  returncode : Int
  stdout : String
  stderr : String

/-- Effectful collaborators of the engine, supplied as oracles:
`parseJSON` models `json.loads` on text (`none` = `JSONDecodeError` raised),
`dumpJSON` models `json.dumps`, and `subproc` models
`subprocess.run(command, shell=True, capture_output=True, text=True,
env={..., INPUT_DATA: input}, cwd=working_dir)`, taking the command, the
working directory and the serialized `INPUT_DATA` environment value, with
`.error` modelling an exception raised by the spawn itself. -/
structure Env where
  parseJSON : String → Option Value
  dumpJSON : Value → String
  subproc : String → String → String → Except String SubprocOut

/-- A row of the `Node` table as fetched by `fetch_workflow`: the `position`
column is never read by the engine and is omitted. `parameters` is the raw
text column (`none` = SQL NULL). -/
structure Node where
  id : Nat
  workflow_id : Nat
  name : String
  type : String
  parameters : Option String
deriving DecidableEq

/-- A row of the `Connections` table (the joined display names are unused). -/
structure Conn where
  from_node_id : Nat
  to_node_id : Nat
deriving DecidableEq

/-- The `Workflows` row fields the engine reads. -/
structure Workflow where
  id : Nat
  name : String

/-- The value returned by `fetch_workflow`: the workflow row plus its node
and connection lists (nodes ordered by id, as the query orders them). -/
structure WorkflowData where
  workflow : Workflow
  nodes : List Node
  connections : List Conn

/-- The catalog store: workflow id to its fetched data; `fetch_workflow`
returns `none` when the id is absent. -/
abbrev Catalog := List (Nat × WorkflowData)

/-- A row of the `Executions` ledger table. `ended` models whether
`ended_at` has been stamped by an update. -/
structure ExecRecord where
  id : Nat
  workflow_id : Nat
  node_id : Nat
  run_index : Nat
  status : String
  input : Option String
  output : Option String
  error : Option String
  ended : Bool

/-- The ledger database: records newest first, plus the next row id
(`lastrowid` of the next insert). -/
structure DB where
  records : List ExecRecord
  nextId : Nat

/-- Python truthiness of an optional text column (`None` and `""` falsy). -/
def optStrTruthy : Option String → Bool
  | none => false
  | some s => s ≠ ""

/-- The `create_execution_record` ledger insert: stores the input snapshot
as `json.dumps(input_data) if input_data else None` (so an empty mapping is
stored as SQL NULL) and returns the new row id. -/
def create_execution_record (env : Env) (db : DB) (wfId nodeId runIdx : Nat)
    (status : String) (input : Kv) : Nat × DB :=
  let row : ExecRecord :=
    { id := db.nextId, workflow_id := wfId, node_id := nodeId,
      run_index := runIdx, status := status,
      input := if input.isEmpty then none else some (env.dumpJSON (.dict input)),
      output := none, error := none, ended := false }
  (db.nextId, { records := row :: db.records, nextId := db.nextId + 1 })

/-- The `update_execution_record` ledger update: sets status, output
(`json.dumps(output_data) if output_data else None`, so falsy outputs are
stored as NULL), error, and stamps the end timestamp. -/
def update_execution_record (env : Env) (db : DB) (execId : Nat)
    (status : String) (output : Option Value) (error : Option String) : DB :=
  { db with records := db.records.map (fun r =>
      if r.id = execId then
        { r with
          status := status
          output := (match output with
            | some v => if pyTruthy v then some (env.dumpJSON v) else none
            | none => none)
          error := error
          ended := true }
      else r) }

/-- The `get_next_run_index` query:
`COALESCE(MAX(run_index), 0) + 1` over records of this workflow and node. -/
def get_next_run_index (db : DB) (wfId nodeId : Nat) : Nat :=
  (db.records.foldl (fun m r =>
    if r.workflow_id = wfId ∧ r.node_id = nodeId then max m r.run_index else m) 0) + 1

/-- Parsing of the stored `parameters` column at the top of `execute_node`:
`json.loads(node['parameters']) if node['parameters'] else {}`.  This runs
before the dispatcher's `try` block, so a parse failure is a raised
exception (`.error`), not a failure envelope. -/
def parseParams (env : Env) (node : Node) : Except String Value :=
  match node.parameters with
  | none => .ok (.dict [])
  | some s =>
    if s = "" then .ok (.dict [])
    else
      match env.parseJSON s with
      | some v => .ok v
      | none => .error ("JSONDecodeError in node parameters: " ++ s)

/-- The `Trigger` handler: success with the input returned unchanged. -/
def execute_trigger_node (node : Node) (input : Kv) : NodeResult :=
  { success := true, output := some (.dict input),
    message := some ("Trigger node " ++ node.name ++ " executed successfully") }

/-- The `Command` handler: serializes the merged input as JSON into the
`INPUT_DATA` environment variable, runs `parameters['command']` with
`shell=True` in `parameters.get('working_dir', '.')`; exit code 0 yields
success carrying captured stdout as raw text, non-zero yields failure
carrying captured stderr (and no output field). -/
def execute_command_node (env : Env) (node : Node) (input : Kv)
    (params : Value) : Except String NodeResult := do
  let inputJson := env.dumpJSON (.dict input)
  let cmdV ← pyGetItem params "command"
  let wdV ← pyGetDefault params "working_dir" (.str ".")
  let cmd ← match cmdV with
    | .str c => pure c
    | _ => Except.error "TypeError: command must be text"
  let wd ← match wdV with
    | .str w => pure w
    | _ => Except.error "TypeError: working_dir must be text"
  let res ← env.subproc cmd wd inputJson
  if res.returncode ≠ 0 then
    pure { success := false, error := some res.stderr }
  else
    pure { success := true, output := some (.str res.stdout),
           message := some ("Command node " ++ node.name ++ " executed successfully") }

/-- The `Constant` handler: ignores input, returns the parsed parameters
value verbatim as output. -/
def execute_constant_node (node : Node) (params : Value) : NodeResult :=
  { success := true, output := some params,
    message := some ("Constant node " ++ node.name ++ " executed successfully") }

/-- The `LLM` placeholder handler: passthrough. -/
def execute_llm_node (node : Node) (input : Kv) : NodeResult :=
  { success := true, output := some (.dict input),
    message := some ("LLM node " ++ node.name ++ " executed successfully") }

/-- The `Conditional` placeholder handler: passthrough. -/
def execute_conditional_node (node : Node) (input : Kv) : NodeResult :=
  { success := true, output := some (.dict input),
    message := some ("Conditional node " ++ node.name ++ " executed successfully") }

/-- The `Manual` placeholder handler: passthrough. -/
def execute_manual_node (node : Node) (input : Kv) : NodeResult :=
  { success := true, output := some (.dict input),
    message := some ("Manual node " ++ node.name ++ " executed successfully") }

/-- The body of `execute_node`'s `try` block: type-tagged dispatch over the
six node kinds, raising `ValueError("Unknown node type: ...")` otherwise.
An `.error` here is an exception raised inside the guarded region. -/
def dispatchNode (env : Env) (node : Node) (input : Kv) (params : Value) :
    Except String NodeResult :=
  if node.type = "Trigger" then .ok (execute_trigger_node node input)
  else if node.type = "Command" then execute_command_node env node input params
  else if node.type = "Constant" then .ok (execute_constant_node node params)
  else if node.type = "LLM" then .ok (execute_llm_node node input)
  else if node.type = "Conditional" then .ok (execute_conditional_node node input)
  else if node.type = "Manual" then .ok (execute_manual_node node input)
  else .error ("Unknown node type: " ++ node.type)

/-- The full `execute_node` dispatcher: parameter parsing runs outside the
`try` block (its exception propagates to the caller as `.error`), while any
exception inside the dispatch is caught and converted into the failure
envelope `{success: False, error: str(e), output: None}`. -/
def execute_node (env : Env) (node : Node) (input : Kv) :
    Except String NodeResult := do
  let params ← parseParams env node
  match dispatchNode env node input params with
  | .ok r => pure r
  | .error e => pure { success := false, error := some e, output := none }

/-- Lookup in the adjacency map with default `[]` (`graph.get(id, [])`). -/
def lookupGraph (g : List (Nat × List Nat)) (k : Nat) : List Nat :=
  getAssoc g k []

/-- Lookup in the in-degree map with default 0 (`in_degree.get(id, 0)`). -/
def lookupDeg (d : List (Nat × Nat)) (k : Nat) : Nat :=
  getAssoc d k 0

/-- One `graph[f].append(t)` on the defaultdict(list) adjacency map. -/
def appendAdj (g : List (Nat × List Nat)) (f t : Nat) : List (Nat × List Nat) :=
  mapAssoc g f (fun l => l ++ [t]) [t]

/-- One `in_degree[t] += 1` on the defaultdict(int) in-degree map. -/
def bumpDeg (d : List (Nat × Nat)) (t : Nat) : List (Nat × Nat) :=
  mapAssoc d t (fun x => x + 1) 1

/-- One `in_degree[n] = 0` zero-initialization assignment. -/
def zeroDeg (d : List (Nat × Nat)) (n : Nat) : List (Nat × Nat) :=
  mapAssoc d n (fun _ => 0) 0

/-- The `build_dag` graph builder: zero-initializes the in-degree of every
node, then for each connection appends the target to the source's adjacency
list and increments the target's in-degree. -/
def build_dag (nodes : List Node) (conns : List Conn) :
    List (Nat × List Nat) × List (Nat × Nat) :=
  conns.foldl (fun gd c =>
    (appendAdj gd.1 c.from_node_id c.to_node_id, bumpDeg gd.2 c.to_node_id))
    ([], nodes.foldl (fun d n => zeroDeg d n.id) [])

/-- The `find_root_nodes` filter: nodes whose in-degree (default 0) is 0. -/
def find_root_nodes (nodes : List Node) (indeg : List (Nat × Nat)) : List Node :=
  nodes.filter (fun n => lookupDeg indeg n.id = 0)

/-- The scheduler's mutable state: the FIFO work queue, the completed id
set (newest first), the per-node results map `execution_results`, the
`node_execution_ids` map, and the ledger database.  The two maps are
modelled newest-first, matching Python dict assignment where the guarded
loop never assigns the same key twice. -/
structure SchedState where
  queue : List Node
  completed : List Nat
  results : List (Nat × NodeResult)
  execIds : List (Nat × Nat)
  db : DB

/-- Fixed context of one run: the oracles, the workflow id, the fetched
node and connection lists, and the adjacency map built by `build_dag`. -/
structure Ctx where
  env : Env
  wfId : Nat
  nodes : List Node
  conns : List Conn
  graph : List (Nat × List Nat)

/-- Outcome of one scheduler action: either a new state, or a raised
exception carrying the database as mutated so far (the exception escapes
to `run_workflow`'s outer handler; the in-memory scheduler state is lost
but the ledger writes persist). -/
inductive StepOut where
  | ok (s : SchedState)
  | exn (e : String) (db : DB)

/-- Outcome of draining the work queue under a fuel bound: the queue
emptied, an exception was raised, or the fuel ran out with the loop still
going (modelling non-termination of the unbounded `while queue:` loop). -/
inductive LoopOut where
  | drained (s : SchedState)
  | exn (e : String) (db : DB)
  | fuelOut (s : SchedState)

/-- The successor-enqueue loop shared by the root phase and the drain loop:
`for next_node_id in graph.get(id, []): if next_node_id not in
completed_nodes: queue.append(node_lookup[next_node_id])`.  A successor id
absent from the node list raises `KeyError` (returned as the offending id). -/
def enqueueNodes (nodes : List Node) (succs : List Nat) (comp : List Nat)
    (q : List Node) : Except Nat (List Node) :=
  succs.foldlM (fun acc t =>
    if t ∈ comp then .ok acc
    else
      match nodes.find? (fun n => n.id = t) with
      | some n => .ok (acc ++ [n])
      | none => .error t) q

/-- The per-node sequence shared by step 5 (roots) and step 6 (queue):
allocate the run index, create a `running` ExecutionRecord with the given
input, dispatch the node, store the result, mark the node completed,
finalize the record to `completed` or `failed`, and enqueue every
not-yet-completed successor. -/
def runNode (ctx : Ctx) (node : Node) (input : Kv) (s : SchedState) : StepOut :=
  let runIdx := get_next_run_index s.db ctx.wfId node.id
  let created := create_execution_record ctx.env s.db ctx.wfId node.id runIdx "running" input
  let execId := created.1
  let db1 := created.2
  match execute_node ctx.env node input with
  | .error e => .exn e db1
  | .ok result =>
    let db2 :=
      if result.success then
        update_execution_record ctx.env db1 execId "completed" result.output none
      else
        update_execution_record ctx.env db1 execId "failed" none result.error
    let completed2 := node.id :: s.completed
    match enqueueNodes ctx.nodes (lookupGraph ctx.graph node.id) completed2 s.queue with
    | .error t => .exn ("KeyError: " ++ toString t) db2
    | .ok queue2 =>
      .ok { queue := queue2
            completed := completed2
            results := (node.id, result) :: s.results
            execIds := (node.id, execId) :: s.execIds
            db := db2 }

/-- The root-initialization loop: process each root immediately and
unconditionally with the run's initial input (an empty mapping when none
was supplied). -/
def initRoots (ctx : Ctx) (initial : Option Kv) : List Node → SchedState → StepOut
  | [], s => .ok s
  | r :: rs, s =>
    match runNode ctx r (initial.getD []) s with
    | .exn e db => .exn e db
    | .ok s2 => initRoots ctx initial rs s2

/-- The dependency-readiness check of the drain loop: every connection into
this node must come from a completed node. -/
def depsMet (conns : List Conn) (comp : List Nat) (nodeId : Nat) : Bool :=
  conns.all (fun c =>
    if c.to_node_id = nodeId then decide (c.from_node_id ∈ comp) else true)

/-- Normalization of one predecessor output before it is merged: a textual
output is parsed as JSON, falling back to wrapping it under `raw_output` on
parse failure; a non-text, non-mapping output is wrapped under `value`; a
mapping passes through.  Note a textual output that parses to a non-mapping
is returned as-is (the subsequent dict update then raises). -/
def normalizeOutput (env : Env) (output : Value) : Value :=
  match output with
  | .str s =>
    (match env.parseJSON s with
     | some v => v
     | none => .dict [("raw_output", .str s)])
  | .dict es => .dict es
  | v => .dict [("value", v)]

/-- The fan-in input aggregation of the drain loop: fold over the
connection list in enumeration order; for each connection into this node
whose source has a stored result that was successful, normalize its output
(`.get('output', {})`) and merge it into the accumulator with
`input_data.update(...)` (last write wins).  Failed or missing
predecessors contribute nothing; a normalized non-mapping raises. -/
def computeInputData (env : Env) (conns : List Conn)
    (results : List (Nat × NodeResult)) (nodeId : Nat) : Except String Kv :=
  conns.foldlM (fun acc c =>
    if c.to_node_id = nodeId then
      match results.find? (fun p => p.1 = c.from_node_id) with
      | some p =>
        if p.2.success then
          pyDictUpdate acc (normalizeOutput env (p.2.output.getD (.dict [])))
        else .ok acc
      | none => .ok acc
    else .ok acc) []

/-- One iteration of the drain loop on the popped front node: discard it if
already completed; re-append it if some dependency is not completed;
otherwise aggregate its input and run the per-node sequence. -/
def loopStep (ctx : Ctx) (node : Node) (rest : List Node) (s : SchedState) : StepOut :=
  if node.id ∈ s.completed then
    .ok { s with queue := rest }
  else if depsMet ctx.conns s.completed node.id then
    match computeInputData ctx.env ctx.conns s.results node.id with
    | .error e => .exn e s.db
    | .ok input => runNode ctx node input { s with queue := rest }
  else
    .ok { s with queue := rest ++ [node] }

/-- The fuel-indexed drain loop (`while queue:`): pop the front node and
run one `loopStep`; an empty queue terminates the loop regardless of fuel,
and exhausted fuel on a nonempty queue models the loop still running. -/
def runLoop (ctx : Ctx) : Nat → SchedState → LoopOut
  | fuel, s =>
    match s.queue with
    | [] => .drained s
    | n :: rest =>
      match fuel with
      | 0 => .fuelOut s
      | fuel' + 1 =>
        match loopStep ctx n rest s with
        | .exn e db => .exn e db
        | .ok s2 => runLoop ctx fuel' s2

/-- The result dictionary returned by `run_workflow`; keys absent from a
given return path keep their defaults. -/
structure RunResult where
  success : Bool
  error : Option String := none
  execution_ids : List (Nat × Nat) := []
  results : List (Nat × NodeResult) := []
  message : Option String := none

/-- The `WorkflowNotFound` run-level error text. -/
def notFoundMsg (wfId : Nat) : String :=
  "Workflow " ++ toString wfId ++ " not found"

/-- The `EmptyWorkflow` run-level error text. -/
def emptyMsg (wfId : Nat) : String :=
  "No nodes found for workflow " ++ toString wfId

/-- The `NoRootNodes` run-level error text. -/
def noRootMsg (wfId : Nat) : String :=
  "No root nodes found for workflow " ++ toString wfId

/-- The count-mismatch (`IncompleteExecution`) run-level error text. -/
def mismatchMsg (completedCount total : Nat) : String :=
  "Not all nodes could be executed. Completed: " ++ toString completedCount ++
    ", Total: " ++ toString total

/-- The outer exception handler's run-level error text. -/
def unexpectedMsg (e : String) : String :=
  "Unexpected error during workflow execution: " ++ e

/-- The full `run_workflow` engine entry point, fuel-indexed.  Returns the
result dictionary (`none` when the fuel runs out, i.e. the Python loop is
still running) together with the ledger database as mutated so far. -/
def run_workflow (env : Env) (cat : Catalog) (db0 : DB) (wfId : Nat)
    (initial : Option Kv) (fuel : Nat) : Option RunResult × DB :=
  match cat.find? (fun p => p.1 = wfId) with
  | none => (some { success := false, error := some (notFoundMsg wfId) }, db0)
  | some entry =>
    let wfd := entry.2
    if wfd.nodes.isEmpty then
      (some { success := false, error := some (emptyMsg wfId) }, db0)
    else
      let built := build_dag wfd.nodes wfd.connections
      let roots := find_root_nodes wfd.nodes built.2
      if roots.isEmpty then
        (some { success := false, error := some (noRootMsg wfId) }, db0)
      else
        let ctx : Ctx :=
          { env := env, wfId := wfId, nodes := wfd.nodes,
            conns := wfd.connections, graph := built.1 }
        let s0 : SchedState :=
          { queue := roots, completed := [], results := [], execIds := [], db := db0 }
        match initRoots ctx initial roots s0 with
        | .exn e db => (some { success := false, error := some (unexpectedMsg e) }, db)
        | .ok s1 =>
          match runLoop ctx fuel s1 with
          | .exn e db => (some { success := false, error := some (unexpectedMsg e) }, db)
          | .fuelOut s => (none, s.db)
          | .drained s =>
            if s.completed.length ≠ wfd.nodes.length then
              (some { success := false,
                      error := some (mismatchMsg s.completed.length wfd.nodes.length) }, s.db)
            else
              (some { success := true, execution_ids := s.execIds, results := s.results,
                      message := some ("Workflow " ++ wfd.workflow.name ++
                        " executed successfully") }, s.db)

/-- Whether the stored parameters of a node parse successfully at the top
of `execute_node` (so no exception escapes the dispatcher). -/
def ParamsOK (env : Env) (node : Node) : Prop :=
  ∃ v, parseParams env node = .ok v

/-- A trivial oracle environment for concrete scenarios whose nodes never
parse text, serialize nonempty inputs, or spawn processes. -/
def envTriv : Env :=
  { parseJSON := fun _ => none
    dumpJSON := fun _ => "serialized"
    subproc := fun _ _ _ => .error "spawn failure" }

/-- An empty ledger database. -/
def dbEmpty : DB := { records := [], nextId := 1 }

/-- A concrete Command node whose parameters text is `paramtext`. -/
def cmdNode : Node :=
  { id := 4, workflow_id := 1, name := "Run", type := "Command",
    parameters := some "paramtext" }

/-- A concrete oracle environment for exercising Command dispatch: the
parameters text parses to a mapping with a `doit` command, and spawning
`doit` exits 1 with stderr `boom`. -/
def envCmd : Env :=
  { parseJSON := fun s =>
      if s = "paramtext" then some (.dict [("command", .str "doit")]) else none
    dumpJSON := fun _ => "serialized"
    subproc := fun c _ _ =>
      if c = "doit" then .ok { returncode := 1, stdout := "", stderr := "boom" }
      else .error "command not found" }

/-- A concrete Trigger node with nonempty parameters text that no JSON
parser accepts (`envTriv.parseJSON` rejects everything). -/
def badParamNode : Node :=
  { id := 1, workflow_id := 1, name := "A", type := "Trigger",
    parameters := some "this is not json" }

/-- A one-node workflow whose single (root) node has unparseable
parameters. -/
def wfBadParams : WorkflowData :=
  { workflow := { id := 1, name := "Bad" }, nodes := [badParamNode],
    connections := [] }

/-- Well-formedness of the ledger database: every stored row id is below
the next insert id (always true of sqlite autoincrement row ids). -/
def DBFresh (db : DB) : Prop :=
  ∀ r ∈ db.records, r.id < db.nextId

/-- Whether a value is a mapping. -/
def isDictV : Value → Bool
  | .dict _ => true
  | _ => false

/-- Modelled from the spec's aggregation rule, for comparison with the
engine's inline merge loop: normalize one predecessor output — text is
parsed as structured data, wrapped under `raw_output` on parse failure;
a non-mapping is wrapped under `value`; a mapping passes through. -/
def specNormalize (env : Env) (output : Value) : Kv :=
  match output with
  | .str s =>
    (match env.parseJSON s with
     | some (.dict es) => es
     | some v => [("value", v)]
     | none => [("raw_output", .str s)])
  | .dict es => es
  | v => [("value", v)]

/-- Modelled from the spec's aggregation rule: the dispatch input of a
non-root node is the last-write-wins merge, in connection enumeration
order, of the normalized outputs of exactly those predecessors whose
dispatch result was successful; failed or resultless predecessors
contribute no keys. -/
def specMergeInput (env : Env) (conns : List Conn)
    (results : List (Nat × NodeResult)) (nodeId : Nat) : Kv :=
  ((conns.filter (fun c => c.to_node_id = nodeId)).filterMap (fun c =>
    match results.find? (fun p => p.1 = c.from_node_id) with
    | some p =>
      if p.2.success then
        some (specNormalize env (p.2.output.getD (.dict [])))
      else none
    | none => none)).foldl dictUpdateKv []

/-- A workflow with no nodes at all. -/
def wfEmpty : WorkflowData :=
  { workflow := { id := 1, name := "E" }, nodes := [], connections := [] }

/-- The character at index 3 of a text, used to tell the engine's run-level
error messages apart whatever their embedded dynamic parts are. -/
def msgProbe (s : String) : Option Char :=
  s.data.get? 3

/-- Concrete Trigger node A (id 1). -/
def nA : Node :=
  { id := 1, workflow_id := 1, name := "A", type := "Trigger", parameters := none }

/-- Concrete Trigger node B (id 2). -/
def nB : Node :=
  { id := 2, workflow_id := 1, name := "B", type := "Trigger", parameters := none }

/-- Concrete Trigger node C (id 3). -/
def nC : Node :=
  { id := 3, workflow_id := 1, name := "C", type := "Trigger", parameters := none }

/-- Edges A→B, B→C, C→B: a two-node cycle reachable from the root A. -/
def cycConns : List Conn :=
  [{ from_node_id := 1, to_node_id := 2 },
   { from_node_id := 2, to_node_id := 3 },
   { from_node_id := 3, to_node_id := 2 }]

/-- A workflow with one root and a sub-graph cycle reachable from it. -/
def wfCyc : WorkflowData :=
  { workflow := { id := 1, name := "W" }, nodes := [nA, nB, nC],
    connections := cycConns }

/-- The catalog holding only the cyclic workflow under id 1. -/
def catCyc : Catalog := [(1, wfCyc)]

/-- The dispatch result of Trigger node A on the empty input. -/
def trigResA : NodeResult :=
  { success := true, output := some (.dict []),
    message := some "Trigger node A executed successfully" }

/-- The finalized ledger row of node A's execution in the cyclic run. -/
def cycRow : ExecRecord :=
  { id := 1, workflow_id := 1, node_id := 1, run_index := 1,
    status := "completed", input := none, output := none, error := none,
    ended := true }

/-- The run context of the cyclic workflow (graph as `build_dag` builds it). -/
def cycCtx : Ctx :=
  { env := envTriv, wfId := 1, nodes := [nA, nB, nC], conns := cycConns,
    graph := [(1, [2]), (2, [3]), (3, [2])] }

/-- Scheduler state of the cyclic run after the root phase. -/
def cycS1 : SchedState :=
  { queue := [nA, nB], completed := [1], results := [(1, trigResA)],
    execIds := [(1, 1)], db := { records := [cycRow], nextId := 2 } }

/-- The looping state of the cyclic run: node B alone in the queue, never
ready because its predecessor C never completes. -/
def cycS2 : SchedState :=
  { queue := [nB], completed := [1], results := [(1, trigResA)],
    execIds := [(1, 1)], db := { records := [cycRow], nextId := 2 } }

/-- Connections for the fan-in example: node 1 → node 3 and node 2 → node 3. -/
def mergeConns : List Conn :=
  [{ from_node_id := 1, to_node_id := 3 }, { from_node_id := 2, to_node_id := 3 }]

/-- Stored results of the fan-in example: predecessor 1 succeeded with a
mapping output, predecessor 2 succeeded with unparseable text output. -/
def mergeResults : List (Nat × NodeResult) :=
  [(1, { success := true, output := some (.dict [("a", .num 1)]) }),
   (2, { success := true, output := some (.str "oops") })]

/-- Scheduler state of the fan-in example: nodes 1 and 2 completed, node 3
queued. -/
def mergeState : SchedState :=
  { queue := [nC], completed := [1, 2], results := mergeResults,
    execIds := [], db := dbEmpty }

/-- Run context of the fan-in example. -/
def mergeCtx : Ctx :=
  { env := envTriv, wfId := 1, nodes := [nA, nB, nC], conns := mergeConns,
    graph := [] }


/-- Hypotheses of a well-formed acyclic run: the context's graph is the one
`build_dag` builds, node ids are unique (schema primary key), connection
endpoints name nodes of the workflow (schema foreign keys / same-workflow
invariant), a rank function certifies acyclicity, every node's stored
parameters parse (or are absent/empty), and no successful dispatch output
is text that parses to a non-mapping (otherwise the merge step raises). -/
structure GoodCtx (ctx : Ctx) (rank : Nat → Nat) : Prop where
  graph_eq : ctx.graph = (build_dag ctx.nodes ctx.conns).1
  ids_nodup : (ctx.nodes.map Node.id).Nodup
  conn_from : ∀ c ∈ ctx.conns, c.from_node_id ∈ ctx.nodes.map Node.id
  conn_to : ∀ c ∈ ctx.conns, c.to_node_id ∈ ctx.nodes.map Node.id
  rank_lt : ∀ c ∈ ctx.conns, rank c.from_node_id < rank c.to_node_id
  params_ok : ∀ n ∈ ctx.nodes, ParamsOK ctx.env n
  merge_safe : ∀ n ∈ ctx.nodes, ∀ (input : Kv) (r : NodeResult),
    execute_node ctx.env n input = .ok r → r.success = true →
    isDictV (normalizeOutput ctx.env (r.output.getD (.dict []))) = true

/-- The drain-loop invariant: completed ids are duplicate-free node ids,
the results map is keyed exactly by the completed set, the queue holds
workflow nodes, every not-completed node whose predecessors are all
completed has a representative in the queue, and every stored successful
result has a mapping-normalizable output. -/
structure SchedInv (ctx : Ctx) (s : SchedState) : Prop where
  comp_nodup : s.completed.Nodup
  comp_sub : ∀ i ∈ s.completed, i ∈ ctx.nodes.map Node.id
  res_keys : s.results.map Prod.fst = s.completed
  queue_mem : ∀ m ∈ s.queue, m ∈ ctx.nodes
  avail : ∀ n ∈ ctx.nodes, n.id ∉ s.completed →
    (∀ c ∈ ctx.conns, c.to_node_id = n.id → c.from_node_id ∈ s.completed) →
    ∃ m ∈ s.queue, m.id = n.id
  res_safe : ∀ p ∈ s.results, p.2.success = true →
    isDictV (normalizeOutput ctx.env (p.2.output.getD (.dict []))) = true

/-- `Steps ctx j s s2`: the drain loop takes `j` successful pops to go
from state `s` to state `s2`. -/
inductive Steps (ctx : Ctx) : Nat → SchedState → SchedState → Prop where
  | zero (s : SchedState) : Steps ctx 0 s s
  | succ (s s2 s3 : SchedState) (n : Node) (rest : List Node) (j : Nat) :
      s.queue = n :: rest → loopStep ctx n rest s = .ok s2 →
      Steps ctx j s2 s3 → Steps ctx (j + 1) s s3

/-- A Command node whose parameters text is the JSON object
`\x7b"command": "echo 5"\x7d`. -/
def cxCmdNode : Node :=
  { id := 1, workflow_id := 1, name := "Emit", type := "Command",
    parameters := some "\x7b\"command\": \"echo 5\"\x7d" }

/-- A two-node acyclic workflow: the Command node feeds node 2. -/
def wfCx : WorkflowData :=
  { workflow := { id := 1, name := "CX" },
    nodes := [cxCmdNode,
      { id := 2, workflow_id := 1, name := "Sink", type := "Trigger",
        parameters := none }],
    connections := [{ from_node_id := 1, to_node_id := 2 }] }

/-- A concrete oracle environment behaving like the real collaborators on
the strings this run produces: the parameters text parses to its object,
`echo 5` exits 0 with stdout `5\n`, and `5\n` parses to the number 5 (as
`json.loads` does). -/
def envCx : Env :=
  { parseJSON := fun s =>
      if s = "\x7b\"command\": \"echo 5\"\x7d" then
        some (.dict [("command", .str "echo 5")])
      else if s = "5\n" then some (.num 5)
      else none
    dumpJSON := fun _ => "\x7b\x7d"
    subproc := fun c _ _ =>
      if c = "echo 5" then .ok { returncode := 0, stdout := "5\n", stderr := "" }
      else .error "command not found" }

section AssocLemmas

variable {κ β : Type} [DecidableEq κ]

theorem fst_preserved_pred (k k2 : κ) (f : β → β) :
    (fun x : κ × β => decide (x.1 = k2)) ∘
      (fun p : κ × β => if p.1 = k then (p.1, f p.2) else p) =
    fun x : κ × β => decide (x.1 = k2) := by
  funext x
  by_cases hx : x.1 = k <;> simp [hx]

theorem getAssoc_mapAssoc (g : List (κ × β)) (k k2 : κ) (f : β → β) (dflt : β) :
    getAssoc (mapAssoc g k f (f dflt)) k2 dflt =
      if k2 = k then f (getAssoc g k dflt) else getAssoc g k2 dflt := by
  unfold mapAssoc getAssoc
  by_cases hany : g.any (fun p => p.1 = k)
  · rw [if_pos hany, List.find?_map, fst_preserved_pred]
    by_cases hk : k2 = k
    · subst hk
      obtain ⟨x, hx, hpx⟩ := List.any_eq_true.mp hany
      have hsome : (g.find? (fun p => decide (p.1 = k2))).isSome :=
        List.find?_isSome.mpr ⟨x, hx, by simpa using hpx⟩
      obtain ⟨e, he⟩ := Option.isSome_iff_exists.mp hsome
      have he1 : e.1 = k2 := by simpa using List.find?_some he
      rw [he]
      simp [he1]
    · rw [if_neg hk]
      cases hfind : g.find? (fun p => decide (p.1 = k2)) with
      | none => rfl
      | some e =>
        have he1 : e.1 = k2 := by simpa using List.find?_some hfind
        have hne : ¬ e.1 = k := by rw [he1]; exact hk
        simp [hne]
  · rw [if_neg hany, List.find?_append]
    have hnone : g.find? (fun p => decide (p.1 = k)) = none := by
      rw [List.find?_eq_none]
      intro x hx
      simp only [decide_eq_true_eq]
      intro hxk
      exact hany (List.any_eq_true.mpr ⟨x, hx, by simpa using hxk⟩)
    by_cases hk : k2 = k
    · subst hk
      rw [hnone]
      simp
    · cases hfind : g.find? (fun p => decide (p.1 = k2)) with
      | none => simp [Ne.symm hk, hk]
      | some e => simp [hk]

theorem lookupDeg_bumpDeg (d : List (Nat × Nat)) (t k : Nat) :
    lookupDeg (bumpDeg d t) k = if k = t then lookupDeg d t + 1 else lookupDeg d k :=
  getAssoc_mapAssoc d t k (fun x => x + 1) 0

theorem lookupDeg_zeroDeg (d : List (Nat × Nat)) (n k : Nat) :
    lookupDeg (zeroDeg d n) k = if k = n then 0 else lookupDeg d k :=
  getAssoc_mapAssoc d n k (fun _ => 0) 0

theorem lookupGraph_appendAdj (g : List (Nat × List Nat)) (f t k : Nat) :
    lookupGraph (appendAdj g f t) k =
      if k = f then lookupGraph g f ++ [t] else lookupGraph g k :=
  getAssoc_mapAssoc g f k (fun l => l ++ [t]) []

end AssocLemmas

section GraphLemmas

theorem foldl_pair_split {α γ δ : Type} (l : List α) (A : γ → α → γ) (B : δ → α → δ)
    (g : γ) (d : δ) :
    l.foldl (fun gd c => (A gd.1 c, B gd.2 c)) (g, d) =
      (l.foldl A g, l.foldl B d) := by
  induction l generalizing g d with
  | nil => rfl
  | cons c l ih => exact ih (A g c) (B d c)

theorem build_dag_eq (nodes : List Node) (conns : List Conn) :
    build_dag nodes conns =
      (conns.foldl (fun g c => appendAdj g c.from_node_id c.to_node_id) [],
       conns.foldl (fun d c => bumpDeg d c.to_node_id)
         (nodes.foldl (fun d n => zeroDeg d n.id) [])) := by
  unfold build_dag
  exact foldl_pair_split conns
    (fun g c => appendAdj g c.from_node_id c.to_node_id)
    (fun d c => bumpDeg d c.to_node_id) []
    (nodes.foldl (fun d n => zeroDeg d n.id) [])

theorem build_dag_fst (nodes : List Node) (conns : List Conn) :
    (build_dag nodes conns).1 =
      conns.foldl (fun g c => appendAdj g c.from_node_id c.to_node_id) [] := by
  rw [build_dag_eq]

theorem build_dag_snd (nodes : List Node) (conns : List Conn) :
    (build_dag nodes conns).2 =
      conns.foldl (fun d c => bumpDeg d c.to_node_id)
        (nodes.foldl (fun d n => zeroDeg d n.id) []) := by
  rw [build_dag_eq]

theorem lookupDeg_zero_init (nodes : List Node) (d : List (Nat × Nat))
    (h : ∀ k, lookupDeg d k = 0) (k : Nat) :
    lookupDeg (nodes.foldl (fun d n => zeroDeg d n.id) d) k = 0 := by
  induction nodes generalizing d with
  | nil => exact h k
  | cons n nodes ih =>
    refine ih (zeroDeg d n.id) ?_
    intro k2
    rw [lookupDeg_zeroDeg]
    by_cases hk : k2 = n.id <;> simp [hk, h]

theorem lookupDeg_bump_fold (conns : List Conn) (d : List (Nat × Nat)) (k : Nat) :
    lookupDeg (conns.foldl (fun d c => bumpDeg d c.to_node_id) d) k =
      lookupDeg d k + conns.countP (fun c => c.to_node_id = k) := by
  induction conns generalizing d with
  | nil => simp
  | cons c conns ih =>
    rw [List.foldl_cons, ih, List.countP_cons, lookupDeg_bumpDeg]
    by_cases hk : c.to_node_id = k
    · simp only [hk, if_pos rfl]
      simp
      omega
    · have hk2 : ¬ k = c.to_node_id := fun h => hk h.symm
      simp only [if_neg hk2]
      simp [hk]

theorem lookupDeg_build (nodes : List Node) (conns : List Conn) (k : Nat) :
    lookupDeg (build_dag nodes conns).2 k =
      conns.countP (fun c => c.to_node_id = k) := by
  rw [build_dag_snd, lookupDeg_bump_fold]
  rw [lookupDeg_zero_init nodes [] (fun _ => rfl) k]
  omega

theorem lookupGraph_append_fold (conns : List Conn) (g : List (Nat × List Nat)) (k : Nat) :
    lookupGraph (conns.foldl (fun g c => appendAdj g c.from_node_id c.to_node_id) g) k =
      lookupGraph g k ++
        (conns.filter (fun c => c.from_node_id = k)).map (fun c => c.to_node_id) := by
  induction conns generalizing g with
  | nil => simp
  | cons c conns ih =>
    rw [List.foldl_cons, ih, lookupGraph_appendAdj]
    by_cases hk : c.from_node_id = k
    · have hk2 : k = c.from_node_id := hk.symm
      simp [List.filter_cons, hk, if_pos hk2, ← hk2, List.append_assoc]
    · have hk2 : ¬ k = c.from_node_id := fun h => hk h.symm
      simp [List.filter_cons, hk, if_neg hk2]

theorem lookupGraph_build (nodes : List Node) (conns : List Conn) (k : Nat) :
    lookupGraph (build_dag nodes conns).1 k =
      (conns.filter (fun c => c.from_node_id = k)).map (fun c => c.to_node_id) := by
  rw [build_dag_fst, lookupGraph_append_fold]
  rfl

theorem mem_lookupGraph_build (nodes : List Node) (conns : List Conn) (f t : Nat) :
    t ∈ lookupGraph (build_dag nodes conns).1 f ↔
      ∃ c ∈ conns, c.from_node_id = f ∧ c.to_node_id = t := by
  rw [lookupGraph_build]
  simp only [List.mem_map, List.mem_filter, decide_eq_true_eq]
  constructor
  · rintro ⟨c, ⟨hc, hf⟩, ht⟩
    exact ⟨c, hc, hf, ht⟩
  · rintro ⟨c, hc, hf, ht⟩
    exact ⟨c, ⟨hc, hf⟩, ht⟩

theorem mem_find_root_nodes (nodes : List Node) (indeg : List (Nat × Nat)) (n : Node) :
    n ∈ find_root_nodes nodes indeg ↔ n ∈ nodes ∧ lookupDeg indeg n.id = 0 := by
  simp [find_root_nodes, List.mem_filter]

theorem find_root_nodes_nil_iff (nodes : List Node) (conns : List Conn) :
    find_root_nodes nodes (build_dag nodes conns).2 = [] ↔
      ∀ n ∈ nodes, ∃ c ∈ conns, c.to_node_id = n.id := by
  rw [List.eq_nil_iff_forall_not_mem]
  constructor
  · intro h n hn
    have := h n
    rw [mem_find_root_nodes] at this
    have hdeg : ¬ lookupDeg (build_dag nodes conns).2 n.id = 0 := by
      intro h0
      exact this ⟨hn, h0⟩
    rw [lookupDeg_build] at hdeg
    have hpos : 0 < conns.countP (fun c => c.to_node_id = n.id) :=
      Nat.pos_of_ne_zero hdeg
    obtain ⟨c, hc, hcp⟩ := List.countP_pos_iff.mp hpos
    exact ⟨c, hc, by simpa using hcp⟩
  · intro h n hmem
    rw [mem_find_root_nodes] at hmem
    obtain ⟨hn, hdeg⟩ := hmem
    rw [lookupDeg_build] at hdeg
    obtain ⟨c, hc, hct⟩ := h n hn
    have hpos : 0 < conns.countP (fun c => c.to_node_id = n.id) :=
      List.countP_pos_iff.mpr ⟨c, hc, by simpa using hct⟩
    omega

theorem depsMet_iff (conns : List Conn) (comp : List Nat) (nodeId : Nat) :
    depsMet conns comp nodeId = true ↔
      ∀ c ∈ conns, c.to_node_id = nodeId → c.from_node_id ∈ comp := by
  simp only [depsMet, List.all_eq_true]
  constructor
  · intro h c hc hto
    have := h c hc
    rw [if_pos hto] at this
    exact of_decide_eq_true this
  · intro h c hc
    by_cases hto : c.to_node_id = nodeId
    · rw [if_pos hto]
      exact decide_eq_true (h c hc hto)
    · rw [if_neg hto]

end GraphLemmas

section RunIndexLemmas

theorem runIndex_fold_noMatch (l : List ExecRecord) (wfId nodeId : Nat) (a : Nat)
    (h : ∀ r ∈ l, ¬ (r.workflow_id = wfId ∧ r.node_id = nodeId)) :
    l.foldl (fun m r =>
      if r.workflow_id = wfId ∧ r.node_id = nodeId then max m r.run_index else m) a = a := by
  induction l generalizing a with
  | nil => rfl
  | cons r l ih =>
    rw [List.foldl_cons, if_neg (h r (List.mem_cons_self r l))]
    exact ih a (fun r2 h2 => h r2 (List.mem_cons_of_mem r h2))

theorem runIndex_fold_filter (l : List ExecRecord) (wfId nodeId : Nat) (a : Nat) :
    l.foldl (fun m r =>
      if r.workflow_id = wfId ∧ r.node_id = nodeId then max m r.run_index else m) a =
    ((l.filter (fun r => decide (r.workflow_id = wfId ∧ r.node_id = nodeId))).map
      ExecRecord.run_index).foldl max a := by
  induction l generalizing a with
  | nil => rfl
  | cons r l ih =>
    by_cases hr : r.workflow_id = wfId ∧ r.node_id = nodeId
    · rw [List.foldl_cons, if_pos hr,
        List.filter_cons_of_pos (by simpa using hr), List.map_cons, List.foldl_cons]
      exact ih (max a r.run_index)
    · rw [List.foldl_cons, if_neg hr,
        List.filter_cons_of_neg (by simpa using hr)]
      exact ih a

end RunIndexLemmas

/-- Claim C7: `get_next_run_index(workflow_id, node_id)` returns 1 when no
prior ExecutionRecord exists for that (workflow, node) pair and
`max(existing run_index) + 1` otherwise; hence executing the same node
twice within the same workflow produces run indices 1 then 2. -/
theorem claim_C7_next_run_index :
    (∀ (db : DB) (wfId nodeId : Nat),
      (∀ r ∈ db.records, ¬ (r.workflow_id = wfId ∧ r.node_id = nodeId)) →
      get_next_run_index db wfId nodeId = 1) ∧
    (∀ (db : DB) (wfId nodeId : Nat),
      get_next_run_index db wfId nodeId =
        ((db.records.filter (fun r =>
          decide (r.workflow_id = wfId ∧ r.node_id = nodeId))).map
            ExecRecord.run_index).foldl max 0 + 1) ∧
    (∀ (env : Env) (db : DB) (wfId nodeId : Nat) (status : String) (input : Kv),
      (∀ r ∈ db.records, ¬ (r.workflow_id = wfId ∧ r.node_id = nodeId)) →
      get_next_run_index db wfId nodeId = 1 ∧
      get_next_run_index
        (create_execution_record env db wfId nodeId 1 status input).2 wfId nodeId = 2) := by
  refine ⟨?_, ?_, ?_⟩
  · intro db wfId nodeId h
    unfold get_next_run_index
    rw [runIndex_fold_noMatch db.records wfId nodeId 0 h]
  · intro db wfId nodeId
    unfold get_next_run_index
    rw [runIndex_fold_filter]
  · intro env db wfId nodeId status input h
    constructor
    · unfold get_next_run_index
      rw [runIndex_fold_noMatch db.records wfId nodeId 0 h]
    · unfold get_next_run_index create_execution_record
      rw [List.foldl_cons]
      rw [runIndex_fold_noMatch db.records wfId nodeId _ h]
      simp

/-- Witness for C7: on an empty ledger the run index for node 5 of
workflow 1 is 1, and 2 after one record with run index 1 is created. -/
theorem claim_C7_witness :
    get_next_run_index dbEmpty 1 5 = 1 ∧
    get_next_run_index
      (create_execution_record envTriv dbEmpty 1 5 1 "running" []).2 1 5 = 2 :=
  claim_C7_next_run_index.2.2 envTriv dbEmpty 1 5 "running" []
    (by intro r hr; simp [dbEmpty] at hr)

section DispatcherLemmas

/-- A node whose stored parameters are absent or empty, or parse, never
raises out of `execute_node`. -/
theorem execute_node_total (env : Env) (node : Node) (input : Kv)
    (h : ParamsOK env node) : ∃ r, execute_node env node input = .ok r := by
  obtain ⟨v, hv⟩ := h
  cases hd : dispatchNode env node input v with
  | ok r => exact ⟨r, by simp [execute_node, hv, hd, Bind.bind, Except.bind, pure, Except.pure]⟩
  | error e =>
    exact ⟨{ success := false, error := some e, output := none },
      by simp [execute_node, hv, hd, Bind.bind, Except.bind, pure, Except.pure]⟩

/-- Nonempty parameters text that fails to parse makes `execute_node`
raise (the parse runs before the dispatcher's `try` block). -/
theorem execute_node_params_error (env : Env) (node : Node) (input : Kv)
    (p : String) (hp : node.parameters = some p) (hne : p ≠ "")
    (hparse : env.parseJSON p = none) :
    execute_node env node input = .error ("JSONDecodeError in node parameters: " ++ p) := by
  simp [execute_node, parseParams, hp, hne, hparse, Bind.bind, Except.bind]

/-- Characterization of the successor-enqueue loop when every successor id
names a node of the workflow. -/
theorem enqueueNodes_ok (nodes : List Node) (succs : List Nat) (comp : List Nat)
    (q : List Node) (h : ∀ t ∈ succs, ∃ m ∈ nodes, m.id = t) :
    ∃ extra, enqueueNodes nodes succs comp q = .ok (q ++ extra) ∧
      (∀ m ∈ extra, m ∈ nodes ∧ m.id ∈ succs ∧ m.id ∉ comp) ∧
      (∀ t ∈ succs, t ∉ comp → ∃ m ∈ extra, m.id = t) := by
  induction succs generalizing q with
  | nil =>
    refine ⟨[], ?_, ?_, ?_⟩
    · simp [enqueueNodes, pure, Except.pure]
    · simp
    · simp
  | cons t ts ih =>
    have hts : ∀ u ∈ ts, ∃ m ∈ nodes, m.id = u :=
      fun u hu => h u (List.mem_cons_of_mem t hu)
    by_cases hc : t ∈ comp
    · obtain ⟨extra, hfold, hmem, hcov⟩ := ih q hts
      refine ⟨extra, ?_, ?_, ?_⟩
      · have : enqueueNodes nodes (t :: ts) comp q = enqueueNodes nodes ts comp q := by
          simp [enqueueNodes, List.foldlM_cons, hc, Bind.bind, Except.bind, pure, Except.pure]
        rw [this, hfold]
      · intro m hm
        obtain ⟨h1, h2, h3⟩ := hmem m hm
        exact ⟨h1, List.mem_cons_of_mem t h2, h3⟩
      · intro u hu hun
        rcases List.mem_cons.mp hu with h1 | h1
        · exact absurd (h1 ▸ hc) hun
        · exact hcov u h1 hun
    · obtain ⟨m0, hm0, hid0⟩ := h t (List.mem_cons_self t ts)
      have hfindsome : (nodes.find? (fun n => n.id = t)).isSome :=
        List.find?_isSome.mpr ⟨m0, hm0, by simpa using hid0⟩
      obtain ⟨n0, hn0⟩ := Option.isSome_iff_exists.mp hfindsome
      have hn0id : n0.id = t := by simpa using List.find?_some hn0
      have hn0mem : n0 ∈ nodes := List.mem_of_find?_eq_some hn0
      obtain ⟨extra, hfold, hmem, hcov⟩ := ih (q ++ [n0]) hts
      refine ⟨n0 :: extra, ?_, ?_, ?_⟩
      · have : enqueueNodes nodes (t :: ts) comp q = enqueueNodes nodes ts comp (q ++ [n0]) := by
          simp [enqueueNodes, List.foldlM_cons, hc, hn0, Bind.bind, Except.bind, pure, Except.pure]
        rw [this, hfold, List.append_assoc]
        rfl
      · intro m hm
        rcases List.mem_cons.mp hm with h1 | h1
        · subst h1
          exact ⟨hn0mem, by rw [hn0id]; exact List.mem_cons_self t ts, by rw [hn0id]; exact hc⟩
        · obtain ⟨h1', h2', h3'⟩ := hmem m h1
          exact ⟨h1', List.mem_cons_of_mem t h2', h3'⟩
      · intro u hu hun
        rcases List.mem_cons.mp hu with h1 | h1
        · exact ⟨n0, List.mem_cons_self n0 extra, by rw [hn0id, h1]⟩
        · obtain ⟨m, hm, hmid⟩ := hcov u h1 hun
          exact ⟨m, List.mem_cons_of_mem n0 hm, hmid⟩

/-- Characterization of the per-node sequence when the dispatch returns a
result and every graph successor of the node names a node of the workflow:
the node is completed and its result stored regardless of dispatch success,
the new execution record id is stored, and exactly the not-yet-completed
successors are appended to the queue. -/
theorem runNode_char (ctx : Ctx) (node : Node) (input : Kv) (s : SchedState)
    (r : NodeResult) (hex : execute_node ctx.env node input = .ok r)
    (hsucc : ∀ t ∈ lookupGraph ctx.graph node.id, ∃ m ∈ ctx.nodes, m.id = t) :
    ∃ s2 extra, runNode ctx node input s = .ok s2 ∧
      s2.queue = s.queue ++ extra ∧
      s2.completed = node.id :: s.completed ∧
      s2.results = (node.id, r) :: s.results ∧
      s2.execIds = (node.id, s.db.nextId) :: s.execIds ∧
      (∀ m ∈ extra, m ∈ ctx.nodes ∧ m.id ∈ lookupGraph ctx.graph node.id ∧
        m.id ∉ node.id :: s.completed) ∧
      (∀ t ∈ lookupGraph ctx.graph node.id, t ∉ node.id :: s.completed →
        ∃ m ∈ extra, m.id = t) ∧
      s2.db = update_execution_record ctx.env
        (create_execution_record ctx.env s.db ctx.wfId node.id
          (get_next_run_index s.db ctx.wfId node.id) "running" input).2
        s.db.nextId
        (if r.success then "completed" else "failed")
        (if r.success then r.output else none)
        (if r.success then none else r.error) := by
  obtain ⟨extra, hfold, hmem, hcov⟩ :=
    enqueueNodes_ok ctx.nodes (lookupGraph ctx.graph node.id)
      (node.id :: s.completed) s.queue hsucc
  cases hr : r.success with
  | true =>
    have hrun : runNode ctx node input s = .ok
        { queue := s.queue ++ extra
          completed := node.id :: s.completed
          results := (node.id, r) :: s.results
          execIds := (node.id, s.db.nextId) :: s.execIds
          db := update_execution_record ctx.env
            (create_execution_record ctx.env s.db ctx.wfId node.id
              (get_next_run_index s.db ctx.wfId node.id) "running" input).2
            s.db.nextId "completed" r.output none } := by
      unfold runNode
      rw [hex]
      simp only [hr, if_true, hfold, create_execution_record]
    exact ⟨_, extra, hrun, rfl, rfl, rfl, rfl, hmem, hcov, by simp [hr]⟩
  | false =>
    have hrun : runNode ctx node input s = .ok
        { queue := s.queue ++ extra
          completed := node.id :: s.completed
          results := (node.id, r) :: s.results
          execIds := (node.id, s.db.nextId) :: s.execIds
          db := update_execution_record ctx.env
            (create_execution_record ctx.env s.db ctx.wfId node.id
              (get_next_run_index s.db ctx.wfId node.id) "running" input).2
            s.db.nextId "failed" none r.error } := by
      unfold runNode
      rw [hex]
      simp only [hr, if_false, Bool.false_eq_true, hfold, create_execution_record]
    exact ⟨_, extra, hrun, rfl, rfl, rfl, rfl, hmem, hcov, by simp [hr]⟩

end DispatcherLemmas

/-- Claim C5: any exception raised inside a node-type handler — including
the unknown-node-type `ValueError` whose text is `Unknown node type: <type>`
— is caught by the dispatcher and converted into the envelope
`{success: false, error: <message>, output: null}`, and such a failed
dispatch still completes the node and continues the run. -/
theorem claim_C5_dispatcher_catches :
    (∀ (env : Env) (node : Node) (input : Kv) (params : Value) (e : String),
      parseParams env node = .ok params →
      dispatchNode env node input params = .error e →
      execute_node env node input =
        .ok { success := false, error := some e, output := none }) ∧
    (∀ (env : Env) (node : Node) (input : Kv) (params : Value),
      node.type ∉ (["Trigger", "Command", "Constant", "LLM", "Conditional",
        "Manual"] : List String) →
      dispatchNode env node input params =
        .error ("Unknown node type: " ++ node.type)) ∧
    (∀ (ctx : Ctx) (node : Node) (rest : List Node) (s : SchedState)
       (inp : Kv) (r : NodeResult),
      node.id ∉ s.completed →
      depsMet ctx.conns s.completed node.id = true →
      computeInputData ctx.env ctx.conns s.results node.id = .ok inp →
      execute_node ctx.env node inp = .ok r →
      (∀ t ∈ lookupGraph ctx.graph node.id, ∃ m ∈ ctx.nodes, m.id = t) →
      ∃ s2, loopStep ctx node rest s = .ok s2 ∧ node.id ∈ s2.completed ∧
        s2.results = (node.id, r) :: s.results) := by
  refine ⟨?_, ?_, ?_⟩
  · intro env node input params e hp hd
    simp [execute_node, hp, hd, Bind.bind, Except.bind, pure, Except.pure]
  · intro env node input params h
    simp only [List.mem_cons, List.mem_singleton, not_or] at h
    obtain ⟨h1, h2, h3, h4, h5, h6⟩ := h
    simp [dispatchNode, h1, h2, h3, h4, h5, h6]
  · intro ctx node rest s inp r hnc hdeps hinp hex hsucc
    obtain ⟨s2, extra, hrun, _, hcomp, hres, _, _, _, _⟩ :=
      runNode_char ctx node inp { s with queue := rest } r hex hsucc
    refine ⟨s2, ?_, ?_, ?_⟩
    · unfold loopStep
      rw [if_neg hnc, if_pos hdeps, hinp]
      exact hrun
    · rw [hcomp]
      exact List.mem_cons_self node.id _
    · exact hres

/-- Witness for C5: a node of the unknown type `Mystery` dispatches to the
unknown-type error, and `execute_node` converts it into the failure
envelope. -/
theorem claim_C5_witness :
    execute_node envTriv
      { id := 7, workflow_id := 1, name := "M", type := "Mystery", parameters := none }
      [] =
      .ok { success := false, error := some ("Unknown node type: " ++ "Mystery"),
            output := none } :=
  claim_C5_dispatcher_catches.1 envTriv
    { id := 7, workflow_id := 1, name := "M", type := "Mystery", parameters := none }
    [] (.dict []) ("Unknown node type: " ++ "Mystery") (by rfl)
    (claim_C5_dispatcher_catches.2.1 envTriv
      { id := 7, workflow_id := 1, name := "M", type := "Mystery", parameters := none }
      [] (.dict []) (by decide))

/-- Claim C8: Command-type dispatch serializes the merged input as JSON
into the `INPUT_DATA` environment binding handed to the spawned process
(visible here as the third argument of the `subproc` oracle), and maps exit
code 0 to success carrying captured stdout as raw text and a non-zero exit
to failure carrying captured stderr. -/
theorem claim_C8_command_dispatch :
    ∀ (env : Env) (node : Node) (input : Kv) (params : Value) (cmd wd : String)
      (out : SubprocOut),
      parseParams env node = .ok params →
      node.type = "Command" →
      pyGetItem params "command" = .ok (.str cmd) →
      pyGetDefault params "working_dir" (.str ".") = .ok (.str wd) →
      env.subproc cmd wd (env.dumpJSON (.dict input)) = .ok out →
      (out.returncode ≠ 0 →
        execute_node env node input =
          .ok { success := false, error := some out.stderr }) ∧
      (out.returncode = 0 →
        execute_node env node input =
          .ok { success := true, output := some (.str out.stdout),
                message := some ("Command node " ++ node.name ++
                  " executed successfully") }) := by
  intro env node input params cmd wd out hp htype hcmd hwd hsub
  constructor
  · intro hrc
    simp [execute_node, dispatchNode, execute_command_node, hp, htype, hcmd, hwd,
      hsub, hrc, Bind.bind, Except.bind, pure, Except.pure]
  · intro hrc
    simp [execute_node, dispatchNode, execute_command_node, hp, htype, hcmd, hwd,
      hsub, hrc, Bind.bind, Except.bind, pure, Except.pure]

/-- Witness for C8: with the `envCmd` oracle, dispatching the concrete
Command node yields failure carrying the captured stderr `boom`. -/
theorem claim_C8_witness :
    execute_node envCmd cmdNode [] =
      .ok { success := false, error := some "boom" } :=
  (claim_C8_command_dispatch envCmd cmdNode []
    (.dict [("command", .str "doit")]) "doit" "."
    { returncode := 1, stdout := "", stderr := "boom" }
    (by rfl) (by rfl) (by rfl) (by rfl) (by rfl)).1 (by decide)

/-- Claim C10: a node whose stored parameters field is nonempty but not
valid JSON raises before the dispatcher's exception guard, so
`execute_node` propagates the exception instead of returning a failure
envelope, and when such a node is a root the entire run aborts with the
run-level `Unexpected error during workflow execution: ...` failure. -/
theorem claim_C10_bad_parameters :
    (∀ (env : Env) (node : Node) (input : Kv) (p : String),
      node.parameters = some p → p ≠ "" → env.parseJSON p = none →
      execute_node env node input =
        .error ("JSONDecodeError in node parameters: " ++ p)) ∧
    (∀ (env : Env) (cat : Catalog) (db0 : DB) (wfId : Nat) (initial : Option Kv)
       (fuel : Nat) (entry : Nat × WorkflowData) (r : Node) (rs : List Node)
       (p : String),
      cat.find? (fun q => q.1 = wfId) = some entry →
      entry.2.nodes.isEmpty = false →
      find_root_nodes entry.2.nodes
        (build_dag entry.2.nodes entry.2.connections).2 = r :: rs →
      r.parameters = some p → p ≠ "" → env.parseJSON p = none →
      ∃ db1, run_workflow env cat db0 wfId initial fuel =
        (some { success := false,
                error := some (unexpectedMsg
                  ("JSONDecodeError in node parameters: " ++ p)) }, db1)) := by
  constructor
  · exact execute_node_params_error
  · intro env cat db0 wfId initial fuel entry r rs p hfind hne hroots hp hpne hparse
    have hexe := execute_node_params_error env r (initial.getD []) p hp hpne hparse
    refine ⟨(create_execution_record env db0 wfId r.id
      (get_next_run_index db0 wfId r.id) "running" (initial.getD [])).2, ?_⟩
    unfold run_workflow
    rw [hfind]
    simp only [hne, Bool.false_eq_true, if_false, hroots, List.isEmpty_cons,
      initRoots]
    unfold runNode
    rw [hexe]

/-- Witness for C10: running the one-node workflow whose root has
unparseable parameters returns the run-level unexpected-error failure. -/
theorem claim_C10_witness :
    ∃ db1, run_workflow envTriv [(1, wfBadParams)] dbEmpty 1 none 3 =
      (some { success := false,
              error := some (unexpectedMsg
                ("JSONDecodeError in node parameters: " ++ "this is not json")) },
       db1) :=
  claim_C10_bad_parameters.2 envTriv [(1, wfBadParams)] dbEmpty 1 none 3
    (1, wfBadParams) badParamNode [] "this is not json"
    (by rfl) (by rfl) (by rfl) (by rfl) (by decide) (by rfl)

section LedgerStateLemmas

/-- Updating a record never changes which node each row belongs to. -/
theorem update_map_node_id (env : Env) (db : DB) (i : Nat) (st : String)
    (out : Option Value) (err : Option String) :
    (update_execution_record env db i st out err).records.map ExecRecord.node_id =
      db.records.map ExecRecord.node_id := by
  unfold update_execution_record
  rw [List.map_map]
  refine List.map_congr_left ?_
  intro r _
  by_cases h : r.id = i <;> simp [h]

/-- On a fresh database, finalizing the record just created leaves exactly
one new row in front of the old records, carrying the creation-time input
snapshot with the terminal status and stamped end. -/
theorem update_after_create (env : Env) (db : DB) (wfId nodeId runIdx : Nat)
    (input : Kv) (st : String) (out : Option Value) (err : Option String)
    (hf : DBFresh db) :
    update_execution_record env
      (create_execution_record env db wfId nodeId runIdx "running" input).2
      db.nextId st out err =
    { records :=
        { id := db.nextId, workflow_id := wfId, node_id := nodeId,
          run_index := runIdx, status := st,
          input := if input.isEmpty then none
                   else some (env.dumpJSON (.dict input)),
          output := (match out with
            | some v => if pyTruthy v then some (env.dumpJSON v) else none
            | none => none),
          error := err, ended := true } :: db.records,
      nextId := db.nextId + 1 } := by
  unfold update_execution_record create_execution_record
  have h1 : ∀ r ∈ db.records,
      (fun r : ExecRecord => if r.id = db.nextId then
        { r with
          status := st
          output := (match out with
            | some v => if pyTruthy v then some (env.dumpJSON v) else none
            | none => none)
          error := err
          ended := true } else r) r = r := by
    intro r hr
    exact if_neg (Nat.ne_of_lt (hf r hr))
  rw [List.map_cons, List.map_congr_left h1, List.map_id']
  simp

/-- Freshness is preserved by the create-then-finalize pair. -/
theorem fresh_update_after_create (env : Env) (db : DB) (wfId nodeId runIdx : Nat)
    (input : Kv) (st : String) (out : Option Value) (err : Option String)
    (hf : DBFresh db) :
    DBFresh (update_execution_record env
      (create_execution_record env db wfId nodeId runIdx "running" input).2
      db.nextId st out err) := by
  rw [update_after_create env db wfId nodeId runIdx input st out err hf]
  intro r hr
  rcases List.mem_cons.mp hr with h | h
  · rw [h]
    exact Nat.lt_succ_self db.nextId
  · exact Nat.lt_succ_of_lt (hf r h)

/-- Decomposition of a successful successor-enqueue: the queue is extended
by nodes of the workflow none of which is already completed. -/
theorem enqueueNodes_shape (nodes : List Node) (succs : List Nat)
    (comp : List Nat) (q q2 : List Node)
    (h : enqueueNodes nodes succs comp q = .ok q2) :
    ∃ extra, q2 = q ++ extra ∧ ∀ m ∈ extra, m.id ∉ comp ∧ m ∈ nodes := by
  induction succs generalizing q with
  | nil =>
    refine ⟨[], ?_, by simp⟩
    have : q = q2 := by
      simpa [enqueueNodes, pure, Except.pure] using h
    simp [this]
  | cons t ts ih =>
    by_cases hc : t ∈ comp
    · have h2 : enqueueNodes nodes ts comp q = .ok q2 := by
        rw [← h]
        simp [enqueueNodes, List.foldlM_cons, hc, Bind.bind, Except.bind]
      exact ih q h2
    · cases hfind : nodes.find? (fun n => n.id = t) with
      | none =>
        exfalso
        have : enqueueNodes nodes (t :: ts) comp q = .error t := by
          simp [enqueueNodes, List.foldlM_cons, hc, hfind, Bind.bind, Except.bind]
        rw [this] at h
        cases h
      | some n0 =>
        have hn0id : n0.id = t := by simpa using List.find?_some hfind
        have hn0mem : n0 ∈ nodes := List.mem_of_find?_eq_some hfind
        have h2 : enqueueNodes nodes ts comp (q ++ [n0]) = .ok q2 := by
          rw [← h]
          simp [enqueueNodes, List.foldlM_cons, hc, hfind, Bind.bind, Except.bind]
        obtain ⟨extra, hq2, hprops⟩ := ih (q ++ [n0]) h2
        refine ⟨n0 :: extra, ?_, ?_⟩
        · rw [hq2, List.append_assoc]
          rfl
        · intro m hm
          rcases List.mem_cons.mp hm with h3 | h3
          · subst h3
            exact ⟨by rw [hn0id]; exact hc, hn0mem⟩
          · exact hprops m h3

end LedgerStateLemmas

/-- Claim C6: every root node is dispatched on exactly the run's initial
input (the empty mapping when none is supplied), and the ExecutionRecord
the engine creates for it at dispatch time has status `running` and stores
that same input as its snapshot (the ledger encodes an input mapping `m` as
`json.dumps(m) if m else NULL`); finalization changes the status but keeps
the snapshot. -/
theorem claim_C6_root_input :
    ∀ (ctx : Ctx) (initial : Option Kv) (r : Node) (rs : List Node)
      (s : SchedState) (res : NodeResult),
      execute_node ctx.env r (initial.getD []) = .ok res →
      (∀ t ∈ lookupGraph ctx.graph r.id, ∃ m ∈ ctx.nodes, m.id = t) →
      DBFresh s.db →
      ∃ s2 row,
        initRoots ctx initial (r :: rs) s = initRoots ctx initial rs s2 ∧
        runNode ctx r (initial.getD []) s = .ok s2 ∧
        s2.results = (r.id, res) :: s.results ∧
        (create_execution_record ctx.env s.db ctx.wfId r.id
          (get_next_run_index s.db ctx.wfId r.id) "running"
          (initial.getD [])).2.records.head? =
          some { id := s.db.nextId, workflow_id := ctx.wfId, node_id := r.id,
                 run_index := get_next_run_index s.db ctx.wfId r.id,
                 status := "running",
                 input := if (initial.getD []).isEmpty then none
                          else some (ctx.env.dumpJSON (.dict (initial.getD []))),
                 output := none, error := none, ended := false } ∧
        s2.db.records = row :: s.db.records ∧
        row.node_id = r.id ∧ row.workflow_id = ctx.wfId ∧
        row.input = (if (initial.getD []).isEmpty then none
                     else some (ctx.env.dumpJSON (.dict (initial.getD [])))) := by
  intro ctx initial r rs s res hex hsucc hf
  obtain ⟨s2, extra, hrun, hq, hcomp, hres, heids, hmem, hcov, hdb⟩ :=
    runNode_char ctx r (initial.getD []) s res hex hsucc
  refine ⟨s2,
    { id := s.db.nextId, workflow_id := ctx.wfId, node_id := r.id,
      run_index := get_next_run_index s.db ctx.wfId r.id,
      status := if res.success then "completed" else "failed",
      input := if (initial.getD []).isEmpty then none
               else some (ctx.env.dumpJSON (.dict (initial.getD []))),
      output := (match (if res.success then res.output else none) with
        | some v => if pyTruthy v then some (ctx.env.dumpJSON v) else none
        | none => none),
      error := if res.success then none else res.error,
      ended := true }, ?_, hrun, hres, by rfl, ?_, rfl, rfl, rfl⟩
  · simp [initRoots, hrun]
  · rw [hdb, update_after_create ctx.env s.db ctx.wfId r.id
      (get_next_run_index s.db ctx.wfId r.id) (initial.getD []) _ _ _ hf]

/-- Witness for C6: the bad-params workflow's root node aside, dispatch the
plain Trigger root of a fresh state on initial input `none`: the result is
stored and one record with a NULL (empty-mapping) snapshot is appended. -/
theorem claim_C6_witness :
    ∃ s2 row,
      initRoots
        { env := envTriv, wfId := 1, nodes := [], conns := [], graph := [] }
        none
        [{ id := 1, workflow_id := 1, name := "A", type := "Trigger",
           parameters := none }]
        { queue := [], completed := [], results := [], execIds := [], db := dbEmpty } =
      initRoots
        { env := envTriv, wfId := 1, nodes := [], conns := [], graph := [] }
        none [] s2 ∧
      runNode
        { env := envTriv, wfId := 1, nodes := [], conns := [], graph := [] }
        { id := 1, workflow_id := 1, name := "A", type := "Trigger",
          parameters := none }
        ((none : Option Kv).getD [])
        { queue := [], completed := [], results := [], execIds := [], db := dbEmpty } =
        .ok s2 ∧
      s2.results = [(1, { success := true, output := some (.dict []),
                          message := some ("Trigger node " ++ "A" ++
                            " executed successfully") })] ∧
      (create_execution_record envTriv dbEmpty 1 1
        (get_next_run_index dbEmpty 1 1) "running" []).2.records.head? =
        some { id := 1, workflow_id := 1, node_id := 1,
               run_index := get_next_run_index dbEmpty 1 1, status := "running",
               input := none, output := none, error := none, ended := false } ∧
      s2.db.records = [row] ∧
      row.node_id = 1 ∧ row.workflow_id = 1 ∧ row.input = none := by
  obtain ⟨s2, row, h1, h2, h3, h4, h5, h6, h7, h8⟩ :=
    claim_C6_root_input
      { env := envTriv, wfId := 1, nodes := [], conns := [], graph := [] }
      none
      { id := 1, workflow_id := 1, name := "A", type := "Trigger",
        parameters := none }
      []
      { queue := [], completed := [], results := [], execIds := [], db := dbEmpty }
      { success := true, output := some (.dict []),
        message := some ("Trigger node " ++ "A" ++ " executed successfully") }
      (by rfl) (by simp [lookupGraph, getAssoc]) (by intro x hx; simp [dbEmpty] at hx)
  exact ⟨s2, row, h1, h2, h3, h4, h5, h6, h7, h8⟩

/-- Inversion of a successful per-node sequence: the dispatch returned a
result, the successor enqueue succeeded, and the new state is exactly the
one the per-node sequence constructs. -/
theorem runNode_ok_inv (ctx : Ctx) (node : Node) (input : Kv)
    (s s2 : SchedState) (h : runNode ctx node input s = .ok s2) :
    ∃ r q2, execute_node ctx.env node input = .ok r ∧
      enqueueNodes ctx.nodes (lookupGraph ctx.graph node.id)
        (node.id :: s.completed) s.queue = .ok q2 ∧
      s2 = { queue := q2
             completed := node.id :: s.completed
             results := (node.id, r) :: s.results
             execIds := (node.id, s.db.nextId) :: s.execIds
             db := update_execution_record ctx.env
               (create_execution_record ctx.env s.db ctx.wfId node.id
                 (get_next_run_index s.db ctx.wfId node.id) "running" input).2
               s.db.nextId
               (if r.success then "completed" else "failed")
               (if r.success then r.output else none)
               (if r.success then none else r.error) } := by
  unfold runNode at h
  cases hex : execute_node ctx.env node input with
  | error e =>
    simp only [hex] at h
    exact StepOut.noConfusion h
  | ok r =>
    simp only [hex] at h
    cases hq : enqueueNodes ctx.nodes (lookupGraph ctx.graph node.id)
        (node.id :: s.completed) s.queue with
    | error t =>
      simp only [hq] at h
      exact StepOut.noConfusion h
    | ok q2 =>
      simp only [hq, StepOut.ok.injEq] at h
      refine ⟨r, q2, rfl, rfl, ?_⟩
      subst h
      cases hr : r.success <;> simp [hr, create_execution_record]

/-- Claim C9: within a single run every node is dispatched at most once and
receives at most one ExecutionRecord: a popped node already in the
completed set is discarded unchanged (no record, no dispatch), and any
successful step keeps the completed ids duplicate-free, keeps the results
map keyed exactly by the completed set, keeps exactly one new ledger row
per completed node, and enqueues only successors not already completed —
the node itself having been added to the completed set before the
successor enqueue. -/
theorem claim_C9_at_most_once :
    (∀ (ctx : Ctx) (node : Node) (rest : List Node) (s : SchedState),
      node.id ∈ s.completed →
      loopStep ctx node rest s = .ok { s with queue := rest }) ∧
    (∀ (ctx : Ctx) (node : Node) (rest : List Node) (s s2 : SchedState)
       (base : List ExecRecord),
      loopStep ctx node rest s = .ok s2 →
      s.completed.Nodup →
      s.results.map Prod.fst = s.completed →
      DBFresh s.db →
      (∃ nw, s.db.records = nw ++ base ∧
        nw.map ExecRecord.node_id = s.completed) →
      s2.completed.Nodup ∧
      s2.results.map Prod.fst = s2.completed ∧
      DBFresh s2.db ∧
      (∃ nw, s2.db.records = nw ++ base ∧
        nw.map ExecRecord.node_id = s2.completed) ∧
      (s2.completed = s.completed ∨
        (node.id ∉ s.completed ∧ s2.completed = node.id :: s.completed ∧
          ∃ r extra, s2.results = (node.id, r) :: s.results ∧
            s2.queue = rest ++ extra ∧
            ∀ m ∈ extra, m.id ∉ s2.completed))) := by
  constructor
  · intro ctx node rest s h
    unfold loopStep
    rw [if_pos h]
  · intro ctx node rest s s2 base hstep hnd hrk hf hinv
    unfold loopStep at hstep
    by_cases hc : node.id ∈ s.completed
    · rw [if_pos hc] at hstep
      simp only [StepOut.ok.injEq] at hstep
      subst hstep
      exact ⟨hnd, hrk, hf, hinv, Or.inl rfl⟩
    · rw [if_neg hc] at hstep
      by_cases hd : depsMet ctx.conns s.completed node.id = true
      · rw [if_pos hd] at hstep
        cases hm : computeInputData ctx.env ctx.conns s.results node.id with
        | error e =>
          rw [hm] at hstep
          cases hstep
        | ok inp =>
          rw [hm] at hstep
          obtain ⟨r, q2, hex, hq, rfl⟩ := runNode_ok_inv ctx node inp
            { s with queue := rest } s2 hstep
          obtain ⟨nw, hnw, hnwid⟩ := hinv
          obtain ⟨extra, hq2, hextra⟩ := enqueueNodes_shape ctx.nodes
            (lookupGraph ctx.graph node.id) (node.id :: s.completed) rest q2 hq
          have hdb := update_after_create ctx.env s.db ctx.wfId node.id
            (get_next_run_index s.db ctx.wfId node.id) inp
            (if r.success then "completed" else "failed")
            (if r.success then r.output else none)
            (if r.success then none else r.error) hf
          refine ⟨List.nodup_cons.mpr ⟨hc, hnd⟩, by simp [hrk], ?_, ?_, ?_⟩
          · simp only [hdb]
            intro x hx
            rcases List.mem_cons.mp hx with h1 | h1
            · rw [h1]
              exact Nat.lt_succ_self s.db.nextId
            · exact Nat.lt_succ_of_lt (hf x h1)
          · refine ⟨{ id := s.db.nextId, workflow_id := ctx.wfId,
                      node_id := node.id,
                      run_index := get_next_run_index s.db ctx.wfId node.id,
                      status := if r.success then "completed" else "failed",
                      input := if inp.isEmpty then none
                               else some (ctx.env.dumpJSON (.dict inp)),
                      output := (match (if r.success then r.output else none) with
                        | some v => if pyTruthy v then some (ctx.env.dumpJSON v)
                                    else none
                        | none => none),
                      error := if r.success then none else r.error,
                      ended := true } :: nw, ?_, ?_⟩
            · simp only [hdb, hnw]
              rfl
            · simp [hnwid]
          · refine Or.inr ⟨hc, rfl, r, extra, rfl, hq2, ?_⟩
            intro m hm
            exact (hextra m hm).1
      · rw [if_neg hd] at hstep
        simp only [StepOut.ok.injEq] at hstep
        subst hstep
        exact ⟨hnd, hrk, hf, hinv, Or.inl rfl⟩

/-- Witness for C9: popping the already-completed node 1 from a state that
has processed it discards it without any new dispatch, record, or result. -/
theorem claim_C9_witness :
    loopStep { env := envTriv, wfId := 1, nodes := [], conns := [], graph := [] }
      { id := 1, workflow_id := 1, name := "A", type := "Trigger",
        parameters := none }
      []
      { queue := [{ id := 1, workflow_id := 1, name := "A", type := "Trigger",
                    parameters := none }]
        completed := [1]
        results := [(1, { success := true })]
        execIds := [(1, 1)]
        db := dbEmpty } =
    .ok { queue := []
          completed := [1]
          results := [(1, { success := true })]
          execIds := [(1, 1)]
          db := dbEmpty } :=
  claim_C9_at_most_once.1
    { env := envTriv, wfId := 1, nodes := [], conns := [], graph := [] }
    { id := 1, workflow_id := 1, name := "A", type := "Trigger",
      parameters := none }
    []
    { queue := [{ id := 1, workflow_id := 1, name := "A", type := "Trigger",
                  parameters := none }]
      completed := [1]
      results := [(1, { success := true })]
      execIds := [(1, 1)]
      db := dbEmpty }
    (by decide)

section LoopUnfoldLemmas

theorem runLoop_nil (ctx : Ctx) (fuel : Nat) (s : SchedState)
    (h : s.queue = []) : runLoop ctx fuel s = .drained s := by
  unfold runLoop
  rw [h]

theorem runLoop_zero (ctx : Ctx) (s : SchedState) (n : Node) (rest : List Node)
    (h : s.queue = n :: rest) : runLoop ctx 0 s = .fuelOut s := by
  unfold runLoop
  rw [h]

theorem runLoop_step_ok (ctx : Ctx) (fuel : Nat) (s : SchedState) (n : Node)
    (rest : List Node) (s2 : SchedState) (hq : s.queue = n :: rest)
    (hs : loopStep ctx n rest s = .ok s2) :
    runLoop ctx (fuel + 1) s = runLoop ctx fuel s2 := by
  conv_lhs => unfold runLoop
  rw [hq]
  simp only [hs]

theorem runLoop_step_exn (ctx : Ctx) (fuel : Nat) (s : SchedState) (n : Node)
    (rest : List Node) (e : String) (db : DB) (hq : s.queue = n :: rest)
    (hs : loopStep ctx n rest s = .exn e db) :
    runLoop ctx (fuel + 1) s = .exn e db := by
  conv_lhs => unfold runLoop
  rw [hq]
  simp only [hs]

theorem runLoop_fix (ctx : Ctx) (s : SchedState) (n : Node) (rest : List Node)
    (hq : s.queue = n :: rest) (hs : loopStep ctx n rest s = .ok s) :
    ∀ fuel, runLoop ctx fuel s = .fuelOut s := by
  intro fuel
  induction fuel with
  | zero => exact runLoop_zero ctx s n rest hq
  | succ f ih =>
    rw [runLoop_step_ok ctx f s n rest s hq hs]
    exact ih

/-- Reduction of `run_workflow` past the three up-front checks and the root
phase: the outcome is determined by the drain loop on the post-root state. -/
theorem run_workflow_loop_cases (env : Env) (cat : Catalog) (db0 : DB)
    (wfId : Nat) (initial : Option Kv) (fuel : Nat) (wfKey : Nat)
    (wfd : WorkflowData) (s1 : SchedState)
    (hfind : cat.find? (fun p => p.1 = wfId) = some (wfKey, wfd))
    (hne : wfd.nodes.isEmpty = false)
    (hroots : (find_root_nodes wfd.nodes
      (build_dag wfd.nodes wfd.connections).2).isEmpty = false)
    (hinit : initRoots
      { env := env, wfId := wfId, nodes := wfd.nodes, conns := wfd.connections,
        graph := (build_dag wfd.nodes wfd.connections).1 }
      initial
      (find_root_nodes wfd.nodes (build_dag wfd.nodes wfd.connections).2)
      { queue := find_root_nodes wfd.nodes (build_dag wfd.nodes wfd.connections).2,
        completed := [], results := [], execIds := [], db := db0 } = .ok s1) :
    run_workflow env cat db0 wfId initial fuel =
      (match runLoop
        { env := env, wfId := wfId, nodes := wfd.nodes, conns := wfd.connections,
          graph := (build_dag wfd.nodes wfd.connections).1 } fuel s1 with
       | .exn e db => (some { success := false, error := some (unexpectedMsg e) }, db)
       | .fuelOut s => (none, s.db)
       | .drained s =>
         if s.completed.length ≠ wfd.nodes.length then
           (some { success := false,
                   error := some (mismatchMsg s.completed.length wfd.nodes.length) },
            s.db)
         else
           (some { success := true, execution_ids := s.execIds,
                   results := s.results,
                   message := some ("Workflow " ++ wfd.workflow.name ++
                     " executed successfully") }, s.db)) := by
  unfold run_workflow
  rw [hfind]
  simp only [hne, Bool.false_eq_true, if_false, hroots, hinit]

end LoopUnfoldLemmas

section MessageLemmas

theorem noRootMsg_probe (i : Nat) : msgProbe (noRootMsg i) = some 'r' := by
  unfold noRootMsg msgProbe
  rw [String.data_append,
    List.get?_append (by decide : 3 < ("No root nodes found for workflow ").data.length)]
  decide

theorem notFoundMsg_probe (i : Nat) : msgProbe (notFoundMsg i) = some 'k' := by
  unfold notFoundMsg msgProbe
  have h1 : 3 < ("Workflow ").data.length := by decide
  have h2 : 3 < ("Workflow " ++ toString i).data.length := by
    rw [String.data_append, List.length_append]
    omega
  rw [String.data_append, List.get?_append h2, String.data_append,
    List.get?_append h1]
  decide

theorem emptyMsg_probe (i : Nat) : msgProbe (emptyMsg i) = some 'n' := by
  unfold emptyMsg msgProbe
  rw [String.data_append,
    List.get?_append (by decide : 3 < ("No nodes found for workflow ").data.length)]
  decide

theorem mismatchMsg_probe (a b : Nat) : msgProbe (mismatchMsg a b) = some ' ' := by
  unfold mismatchMsg msgProbe
  have h1 : 3 < ("Not all nodes could be executed. Completed: ").data.length := by
    decide
  have h2 : 3 <
      ("Not all nodes could be executed. Completed: " ++ toString a).data.length := by
    rw [String.data_append, List.length_append]
    omega
  have h3 : 3 <
      (("Not all nodes could be executed. Completed: " ++ toString a) ++
        ", Total: ").data.length := by
    rw [String.data_append, List.length_append, String.data_append,
      List.length_append]
    omega
  rw [String.data_append, List.get?_append h3, String.data_append,
    List.get?_append h2, String.data_append, List.get?_append h1]
  decide

theorem unexpectedMsg_probe (e : String) : msgProbe (unexpectedMsg e) = some 'x' := by
  unfold unexpectedMsg msgProbe
  rw [String.data_append,
    List.get?_append
      (by decide : 3 < ("Unexpected error during workflow execution: ").data.length)]
  decide

theorem noRoot_ne_notFound (i j : Nat) : noRootMsg i ≠ notFoundMsg j := by
  intro h
  have hp := congrArg msgProbe h
  rw [noRootMsg_probe, notFoundMsg_probe] at hp
  exact absurd hp (by decide)

theorem noRoot_ne_empty (i j : Nat) : noRootMsg i ≠ emptyMsg j := by
  intro h
  have hp := congrArg msgProbe h
  rw [noRootMsg_probe, emptyMsg_probe] at hp
  exact absurd hp (by decide)

theorem noRoot_ne_mismatch (i a b : Nat) : noRootMsg i ≠ mismatchMsg a b := by
  intro h
  have hp := congrArg msgProbe h
  rw [noRootMsg_probe, mismatchMsg_probe] at hp
  exact absurd hp (by decide)

theorem noRoot_ne_unexpected (i : Nat) (e : String) :
    noRootMsg i ≠ unexpectedMsg e := by
  intro h
  have hp := congrArg msgProbe h
  rw [noRootMsg_probe, unexpectedMsg_probe] at hp
  exact absurd hp (by decide)

end MessageLemmas

/-- Claim C3: root-existence is the engine's only cycle guard.  The
concrete workflow A→B, B→C, C→B has the root A, yet its drain loop never
terminates: for every fuel bound the run is still looping (first
conjuncts); and the `NoRootNodes` error is returned only when the workflow
exists, is nonempty, and every one of its nodes has an incoming edge (last
conjunct). -/
theorem claim_C3_cycle_guard :
    (find_root_nodes wfCyc.nodes (build_dag wfCyc.nodes wfCyc.connections).2 =
      [nA]) ∧
    (∀ fuel, (run_workflow envTriv catCyc dbEmpty 1 none fuel).1 = none) ∧
    (∀ (env : Env) (cat : Catalog) (db0 : DB) (wfId : Nat) (initial : Option Kv)
       (fuel : Nat) (res : RunResult) (db' : DB),
      run_workflow env cat db0 wfId initial fuel = (some res, db') →
      res.error = some (noRootMsg wfId) →
      ∃ entry, cat.find? (fun p => p.1 = wfId) = some entry ∧
        entry.2.nodes ≠ [] ∧
        ∀ n ∈ entry.2.nodes, ∃ c ∈ entry.2.connections, c.to_node_id = n.id) := by
  refine ⟨by rfl, ?_, ?_⟩
  · intro fuel
    match fuel with
    | 0 => rfl
    | 1 => rfl
    | (n + 2) =>
      have hfix : ∀ f, runLoop cycCtx f cycS2 = .fuelOut cycS2 :=
        runLoop_fix cycCtx cycS2 nB [] rfl rfl
      have hloop : runLoop cycCtx (n + 2) cycS1 = .fuelOut cycS2 := by
        rw [runLoop_step_ok cycCtx (n + 1) cycS1 nA [nB] cycS2 rfl rfl]
        exact hfix (n + 1)
      have hcases := run_workflow_loop_cases envTriv catCyc dbEmpty 1 none
        (n + 2) 1 wfCyc cycS1 rfl rfl rfl (by rfl)
      have hctx : ({ env := envTriv, wfId := 1, nodes := wfCyc.nodes,
                     conns := wfCyc.connections,
                     graph := (build_dag wfCyc.nodes wfCyc.connections).1 } : Ctx) =
          cycCtx := by rfl
      rw [hctx] at hcases
      rw [hcases, hloop]
  · intro env cat db0 wfId initial fuel res db' hrun herr
    unfold run_workflow at hrun
    cases hfind : cat.find? (fun p => p.1 = wfId) with
    | none =>
      simp only [hfind] at hrun
      simp only [Prod.mk.injEq, Option.some.injEq] at hrun
      rw [← hrun.1] at herr
      simp only [Option.some.injEq] at herr
      exact absurd herr.symm (noRoot_ne_notFound wfId wfId)
    | some entry =>
      simp only [hfind] at hrun
      by_cases hne : entry.2.nodes.isEmpty
      · rw [if_pos hne] at hrun
        simp only [Prod.mk.injEq, Option.some.injEq] at hrun
        rw [← hrun.1] at herr
        simp only [Option.some.injEq] at herr
        exact absurd herr.symm (noRoot_ne_empty wfId wfId)
      · rw [if_neg hne] at hrun
        by_cases hroots : (find_root_nodes entry.2.nodes
            (build_dag entry.2.nodes entry.2.connections).2).isEmpty
        · refine ⟨entry, rfl, ?_, ?_⟩
          · intro hnil
            rw [hnil] at hne
            exact hne rfl
          · have := List.isEmpty_iff.mp hroots
            exact (find_root_nodes_nil_iff entry.2.nodes entry.2.connections).mp this
        · rw [if_neg hroots] at hrun
          exfalso
          cases hinit : initRoots
              { env := env, wfId := wfId, nodes := entry.2.nodes,
                conns := entry.2.connections,
                graph := (build_dag entry.2.nodes entry.2.connections).1 }
              initial
              (find_root_nodes entry.2.nodes
                (build_dag entry.2.nodes entry.2.connections).2)
              { queue := find_root_nodes entry.2.nodes
                  (build_dag entry.2.nodes entry.2.connections).2,
                completed := [], results := [], execIds := [], db := db0 } with
          | exn e db =>
            simp only [hinit] at hrun
            simp only [Prod.mk.injEq, Option.some.injEq] at hrun
            rw [← hrun.1] at herr
            simp only [Option.some.injEq] at herr
            exact absurd herr.symm (noRoot_ne_unexpected wfId e)
          | ok s1 =>
            simp only [hinit] at hrun
            cases hloop : runLoop
                { env := env, wfId := wfId, nodes := entry.2.nodes,
                  conns := entry.2.connections,
                  graph := (build_dag entry.2.nodes entry.2.connections).1 }
                fuel s1 with
            | exn e db =>
              simp only [hloop] at hrun
              simp only [Prod.mk.injEq, Option.some.injEq] at hrun
              rw [← hrun.1] at herr
              simp only [Option.some.injEq] at herr
              exact absurd herr.symm (noRoot_ne_unexpected wfId e)
            | fuelOut s =>
              simp only [hloop] at hrun
              simp only [Prod.mk.injEq] at hrun
              exact Option.noConfusion hrun.1
            | drained s =>
              simp only [hloop] at hrun
              by_cases hlen : s.completed.length ≠ entry.2.nodes.length
              · rw [if_pos hlen] at hrun
                simp only [Prod.mk.injEq, Option.some.injEq] at hrun
                rw [← hrun.1] at herr
                simp only [Option.some.injEq] at herr
                exact absurd herr.symm
                  (noRoot_ne_mismatch wfId s.completed.length entry.2.nodes.length)
              · rw [if_neg hlen] at hrun
                simp only [Prod.mk.injEq, Option.some.injEq] at hrun
                rw [← hrun.1] at herr
                exact Option.noConfusion herr

/-- Witness for C3's negative characterization: running the two-node
workflow A→B, B→A (every node has an incoming edge) yields exactly the
no-root error, whose presence implies by the theorem that every node has an
incoming edge. -/
theorem claim_C3_witness :
    ∃ entry,
      ([(1, { workflow := { id := 1, name := "W2" }, nodes := [nA, nB],
              connections := [{ from_node_id := 1, to_node_id := 2 },
                              { from_node_id := 2, to_node_id := 1 }] })] :
        Catalog).find? (fun p => p.1 = 1) = some entry ∧
      entry.2.nodes ≠ [] ∧
      ∀ n ∈ entry.2.nodes, ∃ c ∈ entry.2.connections, c.to_node_id = n.id :=
  claim_C3_cycle_guard.2.2 envTriv
    [(1, { workflow := { id := 1, name := "W2" }, nodes := [nA, nB],
           connections := [{ from_node_id := 1, to_node_id := 2 },
                           { from_node_id := 2, to_node_id := 1 }] })]
    dbEmpty 1 none 5
    { success := false, error := some (noRootMsg 1) } dbEmpty
    (by rfl) (by rfl)

section NextIdLemmas

theorem runNode_nextId_ok (ctx : Ctx) (node : Node) (input : Kv)
    (s s2 : SchedState) (h : runNode ctx node input s = .ok s2) :
    s2.db.nextId = s.db.nextId + 1 := by
  obtain ⟨r, q2, _, _, rfl⟩ := runNode_ok_inv ctx node input s s2 h
  rfl

theorem runNode_nextId_exn (ctx : Ctx) (node : Node) (input : Kv)
    (s : SchedState) (e : String) (db : DB)
    (h : runNode ctx node input s = .exn e db) :
    db.nextId = s.db.nextId + 1 := by
  unfold runNode at h
  cases hex : execute_node ctx.env node input with
  | error e2 =>
    simp only [hex, StepOut.exn.injEq] at h
    rw [← h.2]
    rfl
  | ok r =>
    simp only [hex] at h
    cases hq : enqueueNodes ctx.nodes (lookupGraph ctx.graph node.id)
        (node.id :: s.completed) s.queue with
    | error t =>
      simp only [hq, StepOut.exn.injEq] at h
      rw [← h.2]
      cases hr : r.success <;> simp [hr, update_execution_record,
        create_execution_record]
    | ok q2 =>
      simp only [hq] at h
      exact StepOut.noConfusion h

theorem initRoots_nextId_ok (ctx : Ctx) (initial : Option Kv) :
    ∀ (rs : List Node) (s s2 : SchedState),
      initRoots ctx initial rs s = .ok s2 → s.db.nextId ≤ s2.db.nextId := by
  intro rs
  induction rs with
  | nil =>
    intro s s2 h
    simp only [initRoots, StepOut.ok.injEq] at h
    rw [h]
  | cons r rs ih =>
    intro s s2 h
    simp only [initRoots] at h
    cases hr : runNode ctx r (initial.getD []) s with
    | exn e db =>
      rw [hr] at h
      cases h
    | ok s' =>
      rw [hr] at h
      have h1 := runNode_nextId_ok ctx r (initial.getD []) s s' hr
      have h2 := ih s' s2 h
      omega

theorem initRoots_nextId_exn (ctx : Ctx) (initial : Option Kv) :
    ∀ (rs : List Node) (s : SchedState) (e : String) (db : DB),
      initRoots ctx initial rs s = .exn e db → s.db.nextId ≤ db.nextId := by
  intro rs
  induction rs with
  | nil =>
    intro s e db h
    simp only [initRoots] at h
    exact StepOut.noConfusion h
  | cons r rs ih =>
    intro s e db h
    simp only [initRoots] at h
    cases hr : runNode ctx r (initial.getD []) s with
    | exn e2 db2 =>
      rw [hr] at h
      cases h
      have := runNode_nextId_exn ctx r (initial.getD []) s e db hr
      omega
    | ok s' =>
      rw [hr] at h
      have h1 := runNode_nextId_ok ctx r (initial.getD []) s s' hr
      have h2 := ih s' e db h
      omega

theorem initRoots_nextId_ok_cons (ctx : Ctx) (initial : Option Kv) (r : Node)
    (rs : List Node) (s s2 : SchedState)
    (h : initRoots ctx initial (r :: rs) s = .ok s2) :
    s.db.nextId < s2.db.nextId := by
  simp only [initRoots] at h
  cases hr : runNode ctx r (initial.getD []) s with
  | exn e db =>
    rw [hr] at h
    cases h
  | ok s' =>
    rw [hr] at h
    have h1 := runNode_nextId_ok ctx r (initial.getD []) s s' hr
    have h2 := initRoots_nextId_ok ctx initial rs s' s2 h
    omega

theorem initRoots_nextId_exn_cons (ctx : Ctx) (initial : Option Kv) (r : Node)
    (rs : List Node) (s : SchedState) (e : String) (db : DB)
    (h : initRoots ctx initial (r :: rs) s = .exn e db) :
    s.db.nextId < db.nextId := by
  simp only [initRoots] at h
  cases hr : runNode ctx r (initial.getD []) s with
  | exn e2 db2 =>
    rw [hr] at h
    cases h
    have := runNode_nextId_exn ctx r (initial.getD []) s e db hr
    omega
  | ok s' =>
    rw [hr] at h
    have h1 := runNode_nextId_ok ctx r (initial.getD []) s s' hr
    have h2 := initRoots_nextId_exn ctx initial rs s' e db h
    omega

theorem loopStep_nextId_ok (ctx : Ctx) (n : Node) (rest : List Node)
    (s s2 : SchedState) (h : loopStep ctx n rest s = .ok s2) :
    s.db.nextId ≤ s2.db.nextId := by
  unfold loopStep at h
  by_cases hc : n.id ∈ s.completed
  · rw [if_pos hc] at h
    simp only [StepOut.ok.injEq] at h
    rw [← h]
  · rw [if_neg hc] at h
    by_cases hd : depsMet ctx.conns s.completed n.id = true
    · rw [if_pos hd] at h
      cases hm : computeInputData ctx.env ctx.conns s.results n.id with
      | error e =>
        rw [hm] at h
        cases h
      | ok inp =>
        rw [hm] at h
        have := runNode_nextId_ok ctx n inp { s with queue := rest } s2 h
        simp at this
        omega
    · rw [if_neg hd] at h
      simp only [StepOut.ok.injEq] at h
      rw [← h]

theorem loopStep_nextId_exn (ctx : Ctx) (n : Node) (rest : List Node)
    (s : SchedState) (e : String) (db : DB)
    (h : loopStep ctx n rest s = .exn e db) :
    s.db.nextId ≤ db.nextId := by
  unfold loopStep at h
  by_cases hc : n.id ∈ s.completed
  · rw [if_pos hc] at h
    cases h
  · rw [if_neg hc] at h
    by_cases hd : depsMet ctx.conns s.completed n.id = true
    · rw [if_pos hd] at h
      cases hm : computeInputData ctx.env ctx.conns s.results n.id with
      | error e2 =>
        rw [hm] at h
        simp only [StepOut.exn.injEq] at h
        rw [← h.2]
      | ok inp =>
        rw [hm] at h
        have := runNode_nextId_exn ctx n inp { s with queue := rest } e db h
        simp at this
        omega
    · rw [if_neg hd] at h
      cases h

theorem runLoop_nextId (ctx : Ctx) :
    ∀ (fuel : Nat) (s : SchedState),
      (∀ s2, runLoop ctx fuel s = .drained s2 → s.db.nextId ≤ s2.db.nextId) ∧
      (∀ e db, runLoop ctx fuel s = .exn e db → s.db.nextId ≤ db.nextId) := by
  intro fuel
  induction fuel with
  | zero =>
    intro s
    constructor
    · intro s2 h
      cases hq : s.queue with
      | nil =>
        rw [runLoop_nil ctx 0 s hq] at h
        cases h
        exact Nat.le_refl _
      | cons n rest =>
        rw [runLoop_zero ctx s n rest hq] at h
        cases h
    · intro e db h
      cases hq : s.queue with
      | nil =>
        rw [runLoop_nil ctx 0 s hq] at h
        cases h
      | cons n rest =>
        rw [runLoop_zero ctx s n rest hq] at h
        cases h
  | succ f ih =>
    intro s
    constructor
    · intro s2 h
      cases hq : s.queue with
      | nil =>
        rw [runLoop_nil ctx (f + 1) s hq] at h
        cases h
        exact Nat.le_refl _
      | cons n rest =>
        cases hs : loopStep ctx n rest s with
        | ok s' =>
          rw [runLoop_step_ok ctx f s n rest s' hq hs] at h
          exact Nat.le_trans (loopStep_nextId_ok ctx n rest s s' hs)
            ((ih s').1 s2 h)
        | exn e' db' =>
          rw [runLoop_step_exn ctx f s n rest e' db' hq hs] at h
          cases h
    · intro e db h
      cases hq : s.queue with
      | nil =>
        rw [runLoop_nil ctx (f + 1) s hq] at h
        cases h
      | cons n rest =>
        cases hs : loopStep ctx n rest s with
        | ok s' =>
          rw [runLoop_step_ok ctx f s n rest s' hq hs] at h
          exact Nat.le_trans (loopStep_nextId_ok ctx n rest s s' hs)
            ((ih s').2 e db h)
        | exn e' db' =>
          rw [runLoop_step_exn ctx f s n rest e' db' hq hs] at h
          cases h
          exact loopStep_nextId_exn ctx n rest s e db hs

end NextIdLemmas

/-- Claim C4: `run` fails at run level — returning `success=false` with a
descriptive error and leaving the ledger untouched (no node dispatched) —
exactly when the workflow id is absent (`WorkflowNotFound`), the workflow
has zero nodes (`EmptyWorkflow`), or every node has an incoming edge
(`NoRootNodes`), checked in that order; conversely every failing run that
leaves the ledger untouched is one of those three cases. -/
theorem claim_C4_run_level_checks :
    (∀ (env : Env) (cat : Catalog) (db0 : DB) (wfId : Nat) (initial : Option Kv)
       (fuel : Nat),
      cat.find? (fun p => p.1 = wfId) = none →
      run_workflow env cat db0 wfId initial fuel =
        (some { success := false, error := some (notFoundMsg wfId) }, db0)) ∧
    (∀ (env : Env) (cat : Catalog) (db0 : DB) (wfId : Nat) (initial : Option Kv)
       (fuel : Nat) (entry : Nat × WorkflowData),
      cat.find? (fun p => p.1 = wfId) = some entry →
      entry.2.nodes = [] →
      run_workflow env cat db0 wfId initial fuel =
        (some { success := false, error := some (emptyMsg wfId) }, db0)) ∧
    (∀ (env : Env) (cat : Catalog) (db0 : DB) (wfId : Nat) (initial : Option Kv)
       (fuel : Nat) (entry : Nat × WorkflowData),
      cat.find? (fun p => p.1 = wfId) = some entry →
      entry.2.nodes ≠ [] →
      (∀ n ∈ entry.2.nodes, ∃ c ∈ entry.2.connections, c.to_node_id = n.id) →
      run_workflow env cat db0 wfId initial fuel =
        (some { success := false, error := some (noRootMsg wfId) }, db0)) ∧
    (∀ (env : Env) (cat : Catalog) (db0 : DB) (wfId : Nat) (initial : Option Kv)
       (fuel : Nat) (res : RunResult),
      run_workflow env cat db0 wfId initial fuel = (some res, db0) →
      res.success = false →
      (cat.find? (fun p => p.1 = wfId) = none ∨
        ∃ entry, cat.find? (fun p => p.1 = wfId) = some entry ∧
          (entry.2.nodes = [] ∨
            ∀ n ∈ entry.2.nodes, ∃ c ∈ entry.2.connections,
              c.to_node_id = n.id))) := by
  refine ⟨?_, ?_, ?_, ?_⟩
  · intro env cat db0 wfId initial fuel h
    unfold run_workflow
    simp only [h]
  · intro env cat db0 wfId initial fuel entry hfind hempty
    unfold run_workflow
    simp [hfind, hempty]
  · intro env cat db0 wfId initial fuel entry hfind hne hall
    have hroots : find_root_nodes entry.2.nodes
        (build_dag entry.2.nodes entry.2.connections).2 = [] :=
      (find_root_nodes_nil_iff entry.2.nodes entry.2.connections).mpr hall
    have hne2 : entry.2.nodes.isEmpty = false := by
      cases h : entry.2.nodes with
      | nil => exact absurd h hne
      | cons a l => rfl
    unfold run_workflow
    simp [hfind, hne2, hroots]
  · intro env cat db0 wfId initial fuel res hrun hsucc
    unfold run_workflow at hrun
    cases hfind : cat.find? (fun p => p.1 = wfId) with
    | none => exact Or.inl rfl
    | some entry =>
      refine Or.inr ⟨entry, rfl, ?_⟩
      simp only [hfind] at hrun
      by_cases hne : entry.2.nodes.isEmpty
      · exact Or.inl (List.isEmpty_iff.mp hne)
      · rw [if_neg hne] at hrun
        by_cases hroots : (find_root_nodes entry.2.nodes
            (build_dag entry.2.nodes entry.2.connections).2).isEmpty
        · exact Or.inr ((find_root_nodes_nil_iff entry.2.nodes
            entry.2.connections).mp (List.isEmpty_iff.mp hroots))
        · exfalso
          rw [if_neg hroots] at hrun
          obtain ⟨r, rs, hrr⟩ : ∃ r rs, find_root_nodes entry.2.nodes
              (build_dag entry.2.nodes entry.2.connections).2 = r :: rs := by
            cases h : find_root_nodes entry.2.nodes
                (build_dag entry.2.nodes entry.2.connections).2 with
            | nil =>
              rw [h] at hroots
              exact absurd rfl hroots
            | cons r rs => exact ⟨r, rs, rfl⟩
          rw [hrr] at hrun
          cases hinit : initRoots
              { env := env, wfId := wfId, nodes := entry.2.nodes,
                conns := entry.2.connections,
                graph := (build_dag entry.2.nodes entry.2.connections).1 }
              initial (r :: rs)
              { queue := r :: rs, completed := [], results := [],
                execIds := [], db := db0 } with
          | exn e db =>
            simp only [hinit] at hrun
            have hlt := initRoots_nextId_exn_cons
              { env := env, wfId := wfId, nodes := entry.2.nodes,
                conns := entry.2.connections,
                graph := (build_dag entry.2.nodes entry.2.connections).1 }
              initial r rs
              { queue := r :: rs, completed := [], results := [],
                execIds := [], db := db0 } e db hinit
            simp only [Prod.mk.injEq] at hrun
            rw [hrun.2] at hlt
            simp at hlt
          | ok s1 =>
            simp only [hinit] at hrun
            have hlt := initRoots_nextId_ok_cons
              { env := env, wfId := wfId, nodes := entry.2.nodes,
                conns := entry.2.connections,
                graph := (build_dag entry.2.nodes entry.2.connections).1 }
              initial r rs
              { queue := r :: rs, completed := [], results := [],
                execIds := [], db := db0 } s1 hinit
            simp only at hlt
            cases hloop : runLoop
                { env := env, wfId := wfId, nodes := entry.2.nodes,
                  conns := entry.2.connections,
                  graph := (build_dag entry.2.nodes entry.2.connections).1 }
                fuel s1 with
            | exn e db =>
              simp only [hloop] at hrun
              have hle := (runLoop_nextId _ fuel s1).2 e db hloop
              simp only [Prod.mk.injEq] at hrun
              rw [hrun.2] at hle
              omega
            | fuelOut s =>
              simp only [hloop] at hrun
              simp only [Prod.mk.injEq] at hrun
              exact Option.noConfusion hrun.1
            | drained s =>
              simp only [hloop] at hrun
              have hle := (runLoop_nextId _ fuel s1).1 s hloop
              by_cases hlen : s.completed.length ≠ entry.2.nodes.length
              · rw [if_pos hlen] at hrun
                simp only [Prod.mk.injEq] at hrun
                rw [hrun.2] at hle
                omega
              · rw [if_neg hlen] at hrun
                simp only [Prod.mk.injEq, Option.some.injEq] at hrun
                rw [← hrun.1] at hsucc
                exact Bool.noConfusion hsucc

/-- Witness for C4: running id 1 against a catalog whose workflow 1 has no
nodes yields the `EmptyWorkflow` failure with the ledger untouched. -/
theorem claim_C4_witness :
    run_workflow envTriv [(1, wfEmpty)] dbEmpty 1 none 7 =
      (some { success := false, error := some (emptyMsg 1) }, dbEmpty) :=
  claim_C4_run_level_checks.2.1 envTriv [(1, wfEmpty)] dbEmpty 1 none 7
    (1, wfEmpty) (by rfl) (by rfl)

section MergeLemmas

/-- When the engine's normalization produces a mapping, it is exactly the
spec-described normalized output. -/
theorem normalizeOutput_dict (env : Env) (v : Value)
    (h : isDictV (normalizeOutput env v) = true) :
    normalizeOutput env v = .dict (specNormalize env v) := by
  cases v with
  | null => rfl
  | bool b => rfl
  | num n => rfl
  | dict es => rfl
  | str s =>
    unfold normalizeOutput at h ⊢
    unfold specNormalize
    cases hp : env.parseJSON s with
    | none => simp [hp]
    | some w =>
      simp only [hp] at h ⊢
      cases w with
      | dict es => rfl
      | null => simp [isDictV] at h
      | bool b => simp [isDictV] at h
      | num n => simp [isDictV] at h
      | str t => simp [isDictV] at h

/-- The engine's inline merge fold agrees with the spec-side merge when
every contributing normalized output is a mapping, for any accumulator. -/
theorem computeInput_spec_aux (env : Env) (results : List (Nat × NodeResult))
    (nodeId : Nat) :
    ∀ (conns : List Conn) (acc : Kv),
      (∀ c ∈ conns, c.to_node_id = nodeId →
        ∀ p, results.find? (fun q => q.1 = c.from_node_id) = some p →
          p.2.success = true →
          isDictV (normalizeOutput env (p.2.output.getD (.dict []))) = true) →
      conns.foldlM (fun acc c =>
        if c.to_node_id = nodeId then
          match results.find? (fun p => p.1 = c.from_node_id) with
          | some p =>
            if p.2.success then
              pyDictUpdate acc (normalizeOutput env (p.2.output.getD (.dict [])))
            else .ok acc
          | none => .ok acc
        else .ok acc) acc =
      .ok (((conns.filter (fun c => c.to_node_id = nodeId)).filterMap (fun c =>
        match results.find? (fun p => p.1 = c.from_node_id) with
        | some p =>
          if p.2.success then
            some (specNormalize env (p.2.output.getD (.dict [])))
          else none
        | none => none)).foldl dictUpdateKv acc) := by
  intro conns
  induction conns with
  | nil =>
    intro acc h
    simp [pure, Except.pure]
  | cons c cs ih =>
    intro acc h
    have hcs := fun c2 h2 => h c2 (List.mem_cons_of_mem c h2)
    rw [List.foldlM_cons]
    by_cases hto : c.to_node_id = nodeId
    · have hfilt : List.filter (fun x => decide (x.to_node_id = nodeId)) (c :: cs) =
          c :: List.filter (fun x => decide (x.to_node_id = nodeId)) cs := by
        simp [hto]
      rw [hfilt, List.filterMap_cons]
      cases hfind : results.find? (fun p => p.1 = c.from_node_id) with
      | none =>
        simp only [if_pos hto, hfind, Bind.bind, Except.bind]
        exact ih acc hcs
      | some p =>
        cases hs : p.2.success with
        | false =>
          simp only [if_pos hto, hfind, hs, Bool.false_eq_true, if_false,
            Bind.bind, Except.bind]
          exact ih acc hcs
        | true =>
          have hdict := h c (List.mem_cons_self c cs) hto p hfind hs
          obtain ⟨es, hes⟩ : ∃ es,
              normalizeOutput env (p.2.output.getD (.dict [])) = .dict es := by
            cases hn : normalizeOutput env (p.2.output.getD (.dict [])) with
            | dict es => exact ⟨es, rfl⟩
            | null => rw [hn] at hdict; simp [isDictV] at hdict
            | bool b => rw [hn] at hdict; simp [isDictV] at hdict
            | num n => rw [hn] at hdict; simp [isDictV] at hdict
            | str t => rw [hn] at hdict; simp [isDictV] at hdict
          have hspec : specNormalize env (p.2.output.getD (.dict [])) = es := by
            have := normalizeOutput_dict env (p.2.output.getD (.dict [])) hdict
            rw [hes] at this
            exact (Value.dict.inj this).symm
          simp only [if_pos hto, hfind, hs, if_true, hes, pyDictUpdate, hspec,
            Bind.bind, Except.bind]
          rw [List.foldl_cons]
          exact ih (dictUpdateKv acc es) hcs
    · have hfilt : List.filter (fun x => decide (x.to_node_id = nodeId)) (c :: cs) =
          List.filter (fun x => decide (x.to_node_id = nodeId)) cs := by
        simp [hto]
      rw [hfilt]
      simp only [if_neg hto, Bind.bind, Except.bind]
      exact ih acc hcs

end MergeLemmas

/-- Claim C2: when a non-root node becomes ready, the engine computes its
dispatch input successfully and that input equals the spec-side merge — the
last-write-wins fold, in connection enumeration order, of the normalized
outputs of exactly the successful predecessors, with textual outputs parsed
(falling back to a `raw_output` wrapper) and non-text non-mapping outputs
wrapped under `value`, failed predecessors contributing no keys — provided
no successful predecessor's textual output parses to a non-mapping (in that
corner the merge raises instead); the node is then dispatched on exactly
that merged input. -/
theorem claim_C2_fanin_merge :
    ∀ (ctx : Ctx) (node : Node) (rest : List Node) (s : SchedState),
      node.id ∉ s.completed →
      depsMet ctx.conns s.completed node.id = true →
      (∀ c ∈ ctx.conns, c.to_node_id = node.id →
        ∀ p, s.results.find? (fun q => q.1 = c.from_node_id) = some p →
          p.2.success = true →
          isDictV (normalizeOutput ctx.env (p.2.output.getD (.dict []))) = true) →
      computeInputData ctx.env ctx.conns s.results node.id =
        .ok (specMergeInput ctx.env ctx.conns s.results node.id) ∧
      loopStep ctx node rest s =
        runNode ctx node (specMergeInput ctx.env ctx.conns s.results node.id)
          { s with queue := rest } := by
  intro ctx node rest s hnc hdeps hsafe
  have hmerge : computeInputData ctx.env ctx.conns s.results node.id =
      .ok (specMergeInput ctx.env ctx.conns s.results node.id) :=
    computeInput_spec_aux ctx.env s.results node.id ctx.conns [] hsafe
  refine ⟨hmerge, ?_⟩
  unfold loopStep
  rw [if_neg hnc, if_pos hdeps, hmerge]

/-- Witness for C2: two completed predecessors of node 3, one with a
mapping output and one with unparseable text, merge into the mapping plus a
`raw_output` wrapper, and node 3 is dispatched on exactly that merge. -/
theorem claim_C2_witness :
    (computeInputData envTriv mergeConns mergeResults 3 =
      .ok (specMergeInput envTriv mergeConns mergeResults 3) ∧
     loopStep mergeCtx nC [] mergeState =
       runNode mergeCtx nC (specMergeInput envTriv mergeConns mergeResults 3)
         { mergeState with queue := [] }) ∧
    specMergeInput envTriv mergeConns mergeResults 3 =
      [("a", .num 1), ("raw_output", .str "oops")] := by
  constructor
  · exact claim_C2_fanin_merge mergeCtx nC [] mergeState (by decide) (by rfl)
      (by
        intro c hc hto p hp hs
        simp only [mergeCtx, mergeConns, List.mem_cons, List.mem_singleton] at hc
        rcases hc with rfl | hc2
        · injection hp with h
          rw [← h]
          rfl
        · rcases hc2 with rfl | h3
          · injection hp with h
            rw [← h]
            rfl
          · exact absurd h3 (by simp))
  · rfl

section TerminationLemmas

theorem goodCtx_succ_wf {ctx : Ctx} {rank : Nat → Nat} (hg : GoodCtx ctx rank)
    (nodeId : Nat) :
    ∀ t ∈ lookupGraph ctx.graph nodeId, ∃ m ∈ ctx.nodes, m.id = t := by
  intro t ht
  rw [hg.graph_eq] at ht
  obtain ⟨c, hc, _, hcto⟩ :=
    (mem_lookupGraph_build ctx.nodes ctx.conns nodeId t).mp ht
  have := hg.conn_to c hc
  rw [hcto] at this
  obtain ⟨m, hm, hmid⟩ := List.mem_map.mp this
  exact ⟨m, hm, hmid⟩

theorem exists_min_rank (rank : Nat → Nat) :
    ∀ (l : List Node), l ≠ [] → ∃ n ∈ l, ∀ m ∈ l, rank n.id ≤ rank m.id := by
  intro l
  induction l with
  | nil => intro h; exact absurd rfl h
  | cons a l ih =>
    intro _
    cases l with
    | nil =>
      refine ⟨a, List.mem_cons_self a [], ?_⟩
      intro m hm
      rcases List.mem_cons.mp hm with rfl | hm2
      · exact Nat.le_refl _
      · cases hm2
    | cons b l2 =>
      obtain ⟨n, hn, hmin⟩ := ih (List.cons_ne_nil b l2)
      by_cases hr : rank a.id ≤ rank n.id
      · refine ⟨a, List.mem_cons_self a _, ?_⟩
        intro m hm
        rcases List.mem_cons.mp hm with rfl | hm2
        · exact Nat.le_refl _
        · exact Nat.le_trans hr (hmin m hm2)
      · refine ⟨n, List.mem_cons_of_mem a hn, ?_⟩
        intro m hm
        rcases List.mem_cons.mp hm with rfl | hm2
        · exact Nat.le_of_lt (Nat.lt_of_not_le hr)
        · exact hmin m hm2

theorem steps_trans {ctx : Ctx} {j j2 : Nat} {s s2 s3 : SchedState}
    (h1 : Steps ctx j s s2) (h2 : Steps ctx j2 s2 s3) :
    Steps ctx (j + j2) s s3 := by
  induction h1 with
  | zero s => rw [Nat.zero_add]; exact h2
  | succ s sa sb n rest j hq hs _ ih =>
    rw [Nat.add_right_comm]
    exact Steps.succ s sa s3 n rest (j + j2) hq hs (ih h2)

theorem steps_runLoop {ctx : Ctx} {j : Nat} {s s2 : SchedState}
    (h : Steps ctx j s s2) :
    ∀ fuel, runLoop ctx (j + fuel) s = runLoop ctx fuel s2 := by
  induction h with
  | zero s => intro fuel; rw [Nat.zero_add]
  | succ s sa sb n rest j hq hs _ ih =>
    intro fuel
    have : j + 1 + fuel = (j + fuel) + 1 := by omega
    rw [this, runLoop_step_ok ctx (j + fuel) s n rest sa hq hs]
    exact ih fuel

theorem inv_discard {ctx : Ctx} {s : SchedState} {n : Node} {rest : List Node}
    (hinv : SchedInv ctx s) (hq : s.queue = n :: rest)
    (hc : n.id ∈ s.completed) :
    SchedInv ctx { s with queue := rest } := by
  refine ⟨hinv.comp_nodup, hinv.comp_sub, hinv.res_keys, ?_, ?_, hinv.res_safe⟩
  · intro m hm
    exact hinv.queue_mem m (by rw [hq]; exact List.mem_cons_of_mem n hm)
  · intro x hx hxc hxready
    obtain ⟨m, hm, hmid⟩ := hinv.avail x hx hxc hxready
    rw [hq] at hm
    rcases List.mem_cons.mp hm with rfl | hm2
    · exact absurd (hmid ▸ hc) hxc
    · exact ⟨m, hm2, hmid⟩

theorem inv_requeue {ctx : Ctx} {s : SchedState} {n : Node} {rest : List Node}
    (hinv : SchedInv ctx s) (hq : s.queue = n :: rest) :
    SchedInv ctx { s with queue := rest ++ [n] } := by
  have hqm : ∀ m, m ∈ rest ++ [n] ↔ m ∈ s.queue := by
    intro m
    rw [hq]
    simp [List.mem_append, List.mem_cons]
    constructor
    · rintro (h | h)
      · exact Or.inr h
      · exact Or.inl h
    · rintro (h | h)
      · exact Or.inr h
      · exact Or.inl h
  refine ⟨hinv.comp_nodup, hinv.comp_sub, hinv.res_keys, ?_, ?_, hinv.res_safe⟩
  · intro m hm
    exact hinv.queue_mem m ((hqm m).mp hm)
  · intro x hx hxc hxready
    obtain ⟨m, hm, hmid⟩ := hinv.avail x hx hxc hxready
    exact ⟨m, (hqm m).mpr hm, hmid⟩

/-- Processing a ready, not-yet-completed front node succeeds (given the
run hypotheses) and preserves the invariant, completing exactly that
node. -/
theorem process_front {ctx : Ctx} {rank : Nat → Nat} {s : SchedState}
    {n : Node} {rest : List Node} (hg : GoodCtx ctx rank)
    (hinv : SchedInv ctx s) (hq : s.queue = n :: rest)
    (hnc : n.id ∉ s.completed)
    (hready : depsMet ctx.conns s.completed n.id = true) :
    ∃ s2, loopStep ctx n rest s = .ok s2 ∧ SchedInv ctx s2 ∧
      s2.completed = n.id :: s.completed := by
  have hnn : n ∈ ctx.nodes := hinv.queue_mem n (by rw [hq]; exact List.mem_cons_self n rest)
  have hsafe : ∀ c ∈ ctx.conns, c.to_node_id = n.id →
      ∀ p, s.results.find? (fun q => q.1 = c.from_node_id) = some p →
        p.2.success = true →
        isDictV (normalizeOutput ctx.env (p.2.output.getD (.dict []))) = true := by
    intro c _ _ p hp hps
    exact hinv.res_safe p (List.mem_of_find?_eq_some hp) hps
  have hmerge : computeInputData ctx.env ctx.conns s.results n.id =
      .ok (specMergeInput ctx.env ctx.conns s.results n.id) :=
    computeInput_spec_aux ctx.env s.results n.id ctx.conns [] hsafe
  obtain ⟨r, hex⟩ := execute_node_total ctx.env n
    (specMergeInput ctx.env ctx.conns s.results n.id) (hg.params_ok n hnn)
  obtain ⟨s2, extra, hrun, hq2, hcomp, hres, _, hmem, hcov, _⟩ :=
    runNode_char ctx n (specMergeInput ctx.env ctx.conns s.results n.id)
      { s with queue := rest } r hex (goodCtx_succ_wf hg n.id)
  dsimp only at hq2 hcomp hres hmem hcov
  have hstep : loopStep ctx n rest s = .ok s2 := by
    unfold loopStep
    rw [if_neg hnc, if_pos hready, hmerge]
    exact hrun
  refine ⟨s2, hstep, ?_, hcomp⟩
  constructor
  · rw [hcomp]
    exact List.nodup_cons.mpr ⟨hnc, hinv.comp_nodup⟩
  · rw [hcomp]
    intro i hi
    rcases List.mem_cons.mp hi with rfl | hi2
    · exact List.mem_map.mpr ⟨n, hnn, rfl⟩
    · exact hinv.comp_sub i hi2
  · rw [hres, hcomp, List.map_cons, hinv.res_keys]
  · intro m hm
    rw [hq2] at hm
    rcases List.mem_append.mp hm with hm1 | hm2
    · exact hinv.queue_mem m (by rw [hq]; exact List.mem_cons_of_mem n hm1)
    · exact (hmem m hm2).1
  · intro x hx hxc hxready
    rw [hcomp] at hxc
    have hxne : x.id ≠ n.id := by
      intro h
      exact hxc (h ▸ List.mem_cons_self n.id s.completed)
    by_cases hold : ∀ c ∈ ctx.conns, c.to_node_id = x.id →
        c.from_node_id ∈ s.completed
    · obtain ⟨m, hm, hmid⟩ := hinv.avail x hx
        (fun h => hxc (List.mem_cons_of_mem n.id h)) hold
      rw [hq] at hm
      rcases List.mem_cons.mp hm with rfl | hm2
      · exact absurd hmid.symm hxne
      · exact ⟨m, by rw [hq2]; exact List.mem_append_left extra hm2, hmid⟩
    · push_neg at hold
      obtain ⟨c, hc, hcto, hcfrom⟩ := hold
      have hcfrom2 : c.from_node_id ∈ n.id :: s.completed := by
        rw [hcomp] at hxready
        exact hxready c hc hcto
      have hcfn : c.from_node_id = n.id := by
        rcases List.mem_cons.mp hcfrom2 with h | h
        · exact h
        · exact absurd h hcfrom
      have hxsucc : x.id ∈ lookupGraph ctx.graph n.id := by
        rw [hg.graph_eq]
        exact (mem_lookupGraph_build ctx.nodes ctx.conns n.id x.id).mpr
          ⟨c, hc, hcfn ▸ rfl, hcto⟩
      obtain ⟨m, hm, hmid⟩ := hcov x.id hxsucc hxc
      exact ⟨m, by rw [hq2]; exact List.mem_append_right rest hm, hmid⟩
  · rw [hres]
    intro p hp hps
    rcases List.mem_cons.mp hp with rfl | hp2
    · exact hg.merge_safe n hnn _ r hex hps
    · exact hinv.res_safe p hp2 hps

/-- From any invariant state with a ready not-yet-completed node at queue
position `k`, at most `k + 1` loop pops complete one more node while
preserving the invariant. -/
theorem step_reach {ctx : Ctx} {rank : Nat → Nat} (hg : GoodCtx ctx rank) :
    ∀ (k : Nat) (s : SchedState), SchedInv ctx s →
      ∀ n, s.queue.get? k = some n → n.id ∉ s.completed →
        depsMet ctx.conns s.completed n.id = true →
        ∃ j s2, j ≤ k + 1 ∧ Steps ctx j s s2 ∧ SchedInv ctx s2 ∧
          s2.completed.length = s.completed.length + 1 := by
  intro k
  induction k with
  | zero =>
    intro s hinv n hget hnc hready
    obtain ⟨f, rest, hq⟩ : ∃ f rest, s.queue = f :: rest := by
      cases hql : s.queue with
      | nil => rw [hql] at hget; cases hget
      | cons f rest => exact ⟨f, rest, rfl⟩
    have hf : f = n := by
      rw [hq] at hget
      exact Option.some.inj hget
    subst hf
    obtain ⟨s2, hstep, hinv2, hcomp⟩ := process_front hg hinv hq hnc hready
    refine ⟨1, s2, Nat.le_refl 1, ?_, hinv2, by rw [hcomp]; rfl⟩
    exact Steps.succ s s2 s2 f rest 0 hq hstep (Steps.zero s2)
  | succ k ih =>
    intro s hinv n hget hnc hready
    obtain ⟨f, rest, hq⟩ : ∃ f rest, s.queue = f :: rest := by
      cases hql : s.queue with
      | nil => rw [hql] at hget; cases hget
      | cons f rest => exact ⟨f, rest, rfl⟩
    have hgetr : rest.get? k = some n := by
      rw [hq] at hget
      exact hget
    by_cases hfc : f.id ∈ s.completed
    · have hstep : loopStep ctx f rest s = .ok { s with queue := rest } := by
        unfold loopStep
        rw [if_pos hfc]
      obtain ⟨j, s2, hj, hsteps, hinv2, hlen⟩ :=
        ih { s with queue := rest } (inv_discard hinv hq hfc) n hgetr hnc hready
      exact ⟨j + 1, s2, by omega,
        Steps.succ s { s with queue := rest } s2 f rest j hq hstep hsteps,
        hinv2, hlen⟩
    · by_cases hfr : depsMet ctx.conns s.completed f.id = true
      · obtain ⟨s2, hstep, hinv2, hcomp⟩ := process_front hg hinv hq hfc hfr
        refine ⟨1, s2, by omega, ?_, hinv2, by rw [hcomp]; rfl⟩
        exact Steps.succ s s2 s2 f rest 0 hq hstep (Steps.zero s2)
      · have hstep : loopStep ctx f rest s = .ok { s with queue := rest ++ [f] } := by
          unfold loopStep
          rw [if_neg hfc, if_neg hfr]
        have hklen : k < rest.length := by
          rcases List.get?_eq_some.mp hgetr with ⟨h, _⟩
          exact h
        have hgetr2 : (rest ++ [f]).get? k = some n := by
          rw [List.get?_append hklen]
          exact hgetr
        obtain ⟨j, s2, hj, hsteps, hinv2, hlen⟩ :=
          ih { s with queue := rest ++ [f] } (inv_requeue hinv hq) n hgetr2
            hnc hready
        exact ⟨j + 1, s2, by omega,
          Steps.succ s { s with queue := rest ++ [f] } s2 f rest j hq hstep hsteps,
          hinv2, hlen⟩

/-- In an invariant state of an acyclic run where some node is not yet
completed, the queue holds a ready not-yet-completed node. -/
theorem exists_ready {ctx : Ctx} {rank : Nat → Nat} (hg : GoodCtx ctx rank)
    {s : SchedState} (hinv : SchedInv ctx s)
    (hleft : ∃ x ∈ ctx.nodes, x.id ∉ s.completed) :
    ∃ k n, s.queue.get? k = some n ∧ n.id ∉ s.completed ∧
      depsMet ctx.conns s.completed n.id = true := by
  classical
  obtain ⟨x0, hx0, hx0c⟩ := hleft
  have hncne : ctx.nodes.filter (fun x => decide (x.id ∉ s.completed)) ≠ [] := by
    intro hnil
    have : x0 ∈ ctx.nodes.filter (fun x => decide (x.id ∉ s.completed)) :=
      List.mem_filter.mpr ⟨hx0, by simpa using hx0c⟩
    rw [hnil] at this
    cases this
  obtain ⟨n, hn, hmin⟩ := exists_min_rank rank
    (ctx.nodes.filter (fun x => decide (x.id ∉ s.completed))) hncne
  have hnn : n ∈ ctx.nodes := (List.mem_filter.mp hn).1
  have hnc : n.id ∉ s.completed := by
    have := (List.mem_filter.mp hn).2
    simpa using this
  have hready : ∀ c ∈ ctx.conns, c.to_node_id = n.id →
      c.from_node_id ∈ s.completed := by
    intro c hc hcto
    by_contra hfrom
    obtain ⟨m, hm, hmid⟩ := List.mem_map.mp (hg.conn_from c hc)
    have hmnc : m ∈ ctx.nodes.filter (fun x => decide (x.id ∉ s.completed)) :=
      List.mem_filter.mpr ⟨hm, by simp [hmid, hfrom]⟩
    have h1 := hmin m hmnc
    have h2 := hg.rank_lt c hc
    rw [hmid] at h1
    rw [hcto] at h2
    omega
  obtain ⟨m, hm, hmid⟩ := hinv.avail n hnn hnc hready
  obtain ⟨k, hk⟩ := List.mem_iff_get?.mp hm
  refine ⟨k, m, hk, by rw [hmid]; exact hnc, ?_⟩
  rw [hmid]
  exact (depsMet_iff ctx.conns s.completed n.id).mpr hready

/-- Once every queued node is completed, the loop drains the queue in as
many pops as it has entries, changing nothing else. -/
theorem drain_done (ctx : Ctx) :
    ∀ (q : List Node) (s : SchedState), s.queue = q →
      (∀ m ∈ q, m.id ∈ s.completed) →
      runLoop ctx q.length s = .drained { s with queue := [] } := by
  intro q
  induction q with
  | nil =>
    intro s hq _
    have : ({ s with queue := [] } : SchedState) = s := by
      rw [← hq]
    rw [this]
    exact runLoop_nil ctx 0 s hq
  | cons m q ih =>
    intro s hq hall
    have hstep : loopStep ctx m q s = .ok { s with queue := q } := by
      unfold loopStep
      rw [if_pos (hall m (List.mem_cons_self m q))]
    rw [List.length_cons,
      runLoop_step_ok ctx q.length s m q { s with queue := q } hq hstep]
    exact ih { s with queue := q } rfl
      (fun m2 hm2 => hall m2 (List.mem_cons_of_mem m hm2))

/-- From any invariant state, enough successful pops complete every node
of the workflow. -/
theorem complete_all {ctx : Ctx} {rank : Nat → Nat} (hg : GoodCtx ctx rank) :
    ∀ (k : Nat) (s : SchedState), SchedInv ctx s →
      ctx.nodes.length - s.completed.length = k →
      ∃ j s2, Steps ctx j s s2 ∧ SchedInv ctx s2 ∧
        s2.completed.length = ctx.nodes.length := by
  intro k
  induction k with
  | zero =>
    intro s hinv hk
    have hle : s.completed.length ≤ ctx.nodes.length := by
      have h1 := List.subperm_of_subset hinv.comp_nodup hinv.comp_sub
      have h2 := h1.length_le
      rw [List.length_map] at h2
      exact h2
    exact ⟨0, s, Steps.zero s, hinv, by omega⟩
  | succ k ih =>
    intro s hinv hk
    have hlt : s.completed.length < ctx.nodes.length := by omega
    have hleft : ∃ x ∈ ctx.nodes, x.id ∉ s.completed := by
      by_contra hno
      push_neg at hno
      have hsub : ctx.nodes.map Node.id ⊆ s.completed := by
        intro i hi
        obtain ⟨x, hx, hxi⟩ := List.mem_map.mp hi
        exact hxi ▸ hno x hx
      have h1 := List.subperm_of_subset hg.ids_nodup hsub
      have h2 := h1.length_le
      rw [List.length_map] at h2
      omega
    obtain ⟨k0, n, hget, hnc, hready⟩ := exists_ready hg hinv hleft
    obtain ⟨j, s1, _, hsteps, hinv1, hlen⟩ :=
      step_reach hg k0 s hinv n hget hnc hready
    obtain ⟨j2, s2, hsteps2, hinv2, hlen2⟩ := ih s1 hinv1 (by omega)
    exact ⟨j + j2, s2, steps_trans hsteps hsteps2, hinv2, hlen2⟩

/-- The root phase succeeds under the run hypotheses, completes exactly the
processed roots, extends the queue, and guarantees that every connection
out of a processed root has its target completed or queued. -/
theorem initRoots_establish {ctx : Ctx} {rank : Nat → Nat} (hg : GoodCtx ctx rank)
    (initial : Option Kv) :
    ∀ (rs : List Node) (s : SchedState),
      (∀ m ∈ rs, m ∈ ctx.nodes) →
      (rs.map Node.id).Nodup →
      (∀ i ∈ rs.map Node.id, i ∉ s.completed) →
      s.completed.Nodup →
      (∀ i ∈ s.completed, i ∈ ctx.nodes.map Node.id) →
      s.results.map Prod.fst = s.completed →
      (∀ m ∈ s.queue, m ∈ ctx.nodes) →
      (∀ p ∈ s.results, p.2.success = true →
        isDictV (normalizeOutput ctx.env (p.2.output.getD (.dict []))) = true) →
      ∃ s2, initRoots ctx initial rs s = .ok s2 ∧
        s2.completed = (rs.map Node.id).reverse ++ s.completed ∧
        s2.completed.Nodup ∧
        (∀ i ∈ s2.completed, i ∈ ctx.nodes.map Node.id) ∧
        s2.results.map Prod.fst = s2.completed ∧
        (∀ m ∈ s2.queue, m ∈ ctx.nodes) ∧
        (∀ p ∈ s2.results, p.2.success = true →
          isDictV (normalizeOutput ctx.env (p.2.output.getD (.dict []))) = true) ∧
        (∃ ext, s2.queue = s.queue ++ ext) ∧
        (∀ c ∈ ctx.conns, c.from_node_id ∈ rs.map Node.id →
          c.to_node_id ∈ s2.completed ∨ ∃ m ∈ s2.queue, m.id = c.to_node_id) := by
  intro rs
  induction rs with
  | nil =>
    intro s _ _ _ h4 h5 h6 h7 h8
    refine ⟨s, rfl, by simp, h4, h5, h6, h7, h8, ⟨[], by simp⟩, by simp⟩
  | cons r rs ih =>
    intro s hmem hnodup hdisj hcnd hcsub hrk hqm hrsafe
    have hrn : r ∈ ctx.nodes := hmem r (List.mem_cons_self r rs)
    obtain ⟨res, hex⟩ := execute_node_total ctx.env r (initial.getD [])
      (hg.params_ok r hrn)
    obtain ⟨s', extra, hrun, hq2, hcomp, hres, _, hmem2, hcov, _⟩ :=
      runNode_char ctx r (initial.getD []) s res hex (goodCtx_succ_wf hg r.id)
    have hnodup_cons := List.nodup_cons.mp (show (r.id :: rs.map Node.id).Nodup from hnodup)
    obtain ⟨s2, hinit2, hcomp2, hnodup2, hsub2, hrk2, hqm2, hsafe2,
        ⟨ext2, hqe2⟩, hsucc2⟩ :=
      ih s'
        (fun m hm => hmem m (List.mem_cons_of_mem r hm))
        hnodup_cons.2
        (by
          intro i hi
          rw [hcomp]
          intro hin
          rcases List.mem_cons.mp hin with h | h
          · exact hnodup_cons.1 (h ▸ hi)
          · exact hdisj i (by simp [hi]) h)
        (by
          rw [hcomp]
          exact List.nodup_cons.mpr
            ⟨hdisj r.id (by simp), hcnd⟩)
        (by
          rw [hcomp]
          intro i hi
          rcases List.mem_cons.mp hi with rfl | h
          · exact List.mem_map.mpr ⟨r, hrn, rfl⟩
          · exact hcsub i h)
        (by rw [hres, hcomp, List.map_cons, hrk])
        (by
          rw [hq2]
          intro m hm
          rcases List.mem_append.mp hm with h | h
          · exact hqm m h
          · exact (hmem2 m h).1)
        (by
          rw [hres]
          intro p hp hps
          rcases List.mem_cons.mp hp with rfl | h
          · exact hg.merge_safe r hrn _ res hex hps
          · exact hrsafe p h hps)
    refine ⟨s2, ?_, ?_, hnodup2, hsub2, hrk2, hqm2, hsafe2,
      ⟨extra ++ ext2, by rw [hqe2, hq2, List.append_assoc]⟩, ?_⟩
    · simp only [initRoots, hrun]
      exact hinit2
    · rw [hcomp2, hcomp]
      simp [List.append_assoc]
    · intro c hc hcf
      simp only [List.map_cons, List.mem_cons] at hcf
      rcases hcf with hcf | hcf
      · have hsuccg : c.to_node_id ∈ lookupGraph ctx.graph r.id := by
          rw [hg.graph_eq]
          exact (mem_lookupGraph_build ctx.nodes ctx.conns r.id c.to_node_id).mpr
            ⟨c, hc, hcf, rfl⟩
        by_cases hto : c.to_node_id ∈ r.id :: s.completed
        · left
          rw [hcomp2, hcomp]
          exact List.mem_append_right _ hto
        · right
          obtain ⟨m, hm, hmid⟩ := hcov c.to_node_id hsuccg hto
          refine ⟨m, ?_, hmid⟩
          rw [hqe2, hq2]
          exact List.mem_append_left ext2 (List.mem_append_right s.queue hm)
      · exact hsucc2 c hc hcf

end TerminationLemmas

/-- Counterexample to C1 as stated: the workflow `wfCx` has an acyclic edge
set (every edge increases the node id) and a node of in-degree zero, every
node's parameters are valid JSON, and both dispatches succeed — yet the run
returns `success=false`: the Command node's stdout `5\n` parses to the
number 5, a non-mapping, so the fan-in merge for node 2 raises a TypeError
that aborts the run at run level. -/
theorem claim_C1_counterexample :
    wfCx.connections.all
      (fun c => decide (c.from_node_id < c.to_node_id)) = true ∧
    wfCx.nodes.any
      (fun n => wfCx.connections.all
        (fun c => decide (c.to_node_id ≠ n.id))) = true ∧
    (run_workflow envCx [(1, wfCx)] dbEmpty 1 none 10).1.map RunResult.success =
      some false := by
  refine ⟨by decide, by decide, by rfl⟩

/-- Claim C1 (amended): for every workflow whose edge set is acyclic
(witnessed by a rank function) and which has a node of in-degree zero,
whose node ids are unique and connection endpoints name its nodes (the
schema invariants), and which additionally never raises outside the
dispatcher guard — every node's stored parameters are absent, empty, or
valid JSON, and no successful dispatch output is text parsing to a
non-mapping — `run` terminates (some fuel drains the loop) with
`success=true` and a results map keyed by exactly the workflow's node ids,
regardless of whether individual dispatches succeed or fail. -/
theorem claim_C1_acyclic_termination :
    ∀ (env : Env) (cat : Catalog) (db0 : DB) (wfId : Nat) (initial : Option Kv)
      (wfKey : Nat) (wfd : WorkflowData) (rank : Nat → Nat),
      cat.find? (fun p => p.1 = wfId) = some (wfKey, wfd) →
      (wfd.nodes.map Node.id).Nodup →
      (∀ c ∈ wfd.connections, c.from_node_id ∈ wfd.nodes.map Node.id) →
      (∀ c ∈ wfd.connections, c.to_node_id ∈ wfd.nodes.map Node.id) →
      (∀ c ∈ wfd.connections, rank c.from_node_id < rank c.to_node_id) →
      (∃ n ∈ wfd.nodes, ∀ c ∈ wfd.connections, c.to_node_id ≠ n.id) →
      (∀ n ∈ wfd.nodes, ParamsOK env n) →
      (∀ n ∈ wfd.nodes, ∀ (input : Kv) (r : NodeResult),
        execute_node env n input = .ok r → r.success = true →
        isDictV (normalizeOutput env (r.output.getD (.dict []))) = true) →
      ∃ fuel res db',
        run_workflow env cat db0 wfId initial fuel = (some res, db') ∧
        res.success = true ∧
        (res.results.map Prod.fst).Perm (wfd.nodes.map Node.id) := by
  intro env cat db0 wfId initial wfKey wfd rank hfind hnodup hcf hct hrank hroot
    hparams hmsafe
  have hg : GoodCtx
      { env := env, wfId := wfId, nodes := wfd.nodes, conns := wfd.connections,
        graph := (build_dag wfd.nodes wfd.connections).1 } rank :=
    ⟨rfl, hnodup, hcf, hct, hrank, hparams, hmsafe⟩
  obtain ⟨n0, hn0, hn0e⟩ := hroot
  have hn0deg : lookupDeg (build_dag wfd.nodes wfd.connections).2 n0.id = 0 := by
    rw [lookupDeg_build]
    exact List.countP_eq_zero.mpr (fun c hc => by simpa using hn0e c hc)
  have hn0root : n0 ∈ find_root_nodes wfd.nodes
      (build_dag wfd.nodes wfd.connections).2 :=
    (mem_find_root_nodes _ _ n0).mpr ⟨hn0, hn0deg⟩
  have hrne : find_root_nodes wfd.nodes (build_dag wfd.nodes wfd.connections).2 ≠ [] := by
    intro h
    rw [h] at hn0root
    cases hn0root
  have hrootsElems : ∀ m ∈ find_root_nodes wfd.nodes
      (build_dag wfd.nodes wfd.connections).2, m ∈ wfd.nodes :=
    fun m hm => ((mem_find_root_nodes _ _ m).mp hm).1
  have hrootsNodup : ((find_root_nodes wfd.nodes
      (build_dag wfd.nodes wfd.connections).2).map Node.id).Nodup := by
    have hsub : List.Sublist
        ((find_root_nodes wfd.nodes
          (build_dag wfd.nodes wfd.connections).2).map Node.id)
        (wfd.nodes.map Node.id) :=
      (List.filter_sublist wfd.nodes).map Node.id
    exact hnodup.sublist hsub
  obtain ⟨s1, hinit, hcomp1, hnodup1, hsub1, hrk1, hqm1, hsafe1, ⟨ext1, hqe1⟩,
      hsucc1⟩ :=
    initRoots_establish hg initial
      (find_root_nodes wfd.nodes (build_dag wfd.nodes wfd.connections).2)
      { queue := find_root_nodes wfd.nodes (build_dag wfd.nodes wfd.connections).2,
        completed := [], results := [], execIds := [], db := db0 }
      hrootsElems hrootsNodup (by intro i _ h; cases h) List.nodup_nil
      (by intro i h; cases h) rfl hrootsElems (by intro p h; cases h)
  have hinv1 : SchedInv
      { env := env, wfId := wfId, nodes := wfd.nodes, conns := wfd.connections,
        graph := (build_dag wfd.nodes wfd.connections).1 } s1 := by
    refine ⟨hnodup1, hsub1, hrk1, hqm1, ?_, hsafe1⟩
    intro x hx hxc hxready
    have hxr : x ∉ find_root_nodes wfd.nodes
        (build_dag wfd.nodes wfd.connections).2 := by
      intro hxr
      apply hxc
      rw [hcomp1]
      refine List.mem_append_left _ ?_
      rw [List.mem_reverse]
      exact List.mem_map.mpr ⟨x, hxr, rfl⟩
    have hdeg : lookupDeg (build_dag wfd.nodes wfd.connections).2 x.id ≠ 0 := by
      intro h0
      exact hxr ((mem_find_root_nodes _ _ x).mpr ⟨hx, h0⟩)
    rw [lookupDeg_build] at hdeg
    obtain ⟨c, hc, hcto⟩ := List.countP_pos_iff.mp (Nat.pos_of_ne_zero hdeg)
    have hcto2 : c.to_node_id = x.id := by simpa using hcto
    have hcfrom : c.from_node_id ∈ s1.completed := hxready c hc hcto2
    have hcfromRoots : c.from_node_id ∈ (find_root_nodes wfd.nodes
        (build_dag wfd.nodes wfd.connections).2).map Node.id := by
      rw [hcomp1] at hcfrom
      rcases List.mem_append.mp hcfrom with h | h
      · exact List.mem_reverse.mp h
      · cases h
    rcases hsucc1 c hc hcfromRoots with h | h
    · rw [hcto2] at h
      exact absurd h hxc
    · obtain ⟨m, hm, hmid⟩ := h
      rw [hcto2] at hmid
      exact ⟨m, hm, hmid⟩
  obtain ⟨j, s2, hsteps, hinv2, hlen2⟩ :=
    complete_all hg (wfd.nodes.length - s1.completed.length) s1 hinv1 rfl
  have hperm : s2.completed.Perm (wfd.nodes.map Node.id) := by
    have hsub := List.subperm_of_subset hinv2.comp_nodup hinv2.comp_sub
    refine hsub.perm_of_length_le ?_
    rw [List.length_map]
    exact Nat.le_of_eq hlen2.symm
  have hdrain : runLoop
      { env := env, wfId := wfId, nodes := wfd.nodes, conns := wfd.connections,
        graph := (build_dag wfd.nodes wfd.connections).1 }
      s2.queue.length s2 = .drained { s2 with queue := [] } :=
    drain_done _ s2.queue s2 rfl
      (fun m hm => hperm.mem_iff.mpr
        (List.mem_map.mpr ⟨m, hinv2.queue_mem m hm, rfl⟩))
  have hloop : runLoop
      { env := env, wfId := wfId, nodes := wfd.nodes, conns := wfd.connections,
        graph := (build_dag wfd.nodes wfd.connections).1 }
      (j + s2.queue.length) s1 = .drained { s2 with queue := [] } := by
    rw [steps_runLoop hsteps s2.queue.length]
    exact hdrain
  have hne2 : wfd.nodes.isEmpty = false := by
    cases h : wfd.nodes with
    | nil => rw [h] at hn0; cases hn0
    | cons a l => rfl
  have hrne2 : (find_root_nodes wfd.nodes
      (build_dag wfd.nodes wfd.connections).2).isEmpty = false := by
    cases h : find_root_nodes wfd.nodes (build_dag wfd.nodes wfd.connections).2 with
    | nil => exact absurd h hrne
    | cons a l => rfl
  have hcases := run_workflow_loop_cases env cat db0 wfId initial
    (j + s2.queue.length) wfKey wfd s1 hfind hne2 hrne2 hinit
  simp only [hloop] at hcases
  rw [if_neg (by
    intro h
    exact h hlen2)] at hcases
  refine ⟨j + s2.queue.length, _, _, hcases, rfl, ?_⟩
  show ((({ s2 with queue := [] } : SchedState).results).map Prod.fst).Perm
    (wfd.nodes.map Node.id)
  have : (({ s2 with queue := [] } : SchedState).results).map Prod.fst =
      s2.completed := hinv2.res_keys
  rw [this]
  exact hperm

/-- Witness for the amended C1: a two-node Trigger chain runs to success
with both node ids in the results map. -/
theorem claim_C1_witness :
    ∃ fuel res db',
      run_workflow envTriv
        [(1, { workflow := { id := 1, name := "W" }, nodes := [nA, nB],
               connections := [{ from_node_id := 1, to_node_id := 2 }] })]
        dbEmpty 1 none fuel = (some res, db') ∧
      res.success = true ∧
      (res.results.map Prod.fst).Perm ([nA, nB].map Node.id) :=
  claim_C1_acyclic_termination envTriv
    [(1, { workflow := { id := 1, name := "W" }, nodes := [nA, nB],
           connections := [{ from_node_id := 1, to_node_id := 2 }] })]
    dbEmpty 1 none 1
    { workflow := { id := 1, name := "W" }, nodes := [nA, nB],
      connections := [{ from_node_id := 1, to_node_id := 2 }] }
    (fun i => i)
    (by rfl) (by decide) (by decide) (by decide) (by decide)
    ⟨nA, by decide, by decide⟩
    (by
      intro n hn
      rcases List.mem_cons.mp hn with rfl | hn2
      · exact ⟨.dict [], rfl⟩
      · rcases List.mem_cons.mp hn2 with rfl | hn3
        · exact ⟨.dict [], rfl⟩
        · cases hn3)
    (by
      intro n hn input r hex hs
      rcases List.mem_cons.mp hn with rfl | hn2
      · have : execute_node envTriv nA input =
            .ok (execute_trigger_node nA input) := rfl
        rw [this] at hex
        injection hex with h
        rw [← h]
        rfl
      · rcases List.mem_cons.mp hn2 with rfl | hn3
        · have : execute_node envTriv nB input =
              .ok (execute_trigger_node nB input) := rfl
          rw [this] at hex
          injection hex with h
          rw [← h]
          rfl
        · cases hn3)

end Ai8n
